import Mathlib

/-!
Verification of the descheduler's node-utilization core.

This file shallowly embeds the parts of the repository the claims are about:

* `pkg/api/types.go` — `ResourceThresholds` and its `Negative`/`Round` helpers;
* `pkg/framework/plugins/nodeutilization/classifier/classifier.go` — the
  generic `Classify` bucketing combinator;
* the threshold processor (`NodeProcessor`: `resourceThreshold`,
  `normalizePercentage`, `thresholdsForNode`, `process`), present in two
  copies in the repository (an older inline `process` and a newer one that
  delegates to `thresholdsForNode`);
* the usage clients' `Sync` routines (`PrometheusUsageClient.Sync`,
  `ActualUsageClient.Sync`);
* the eviction loop (`evictPods`, `evictPodsFromSourceNodes`).

Modelling conventions, stated once:

* Go maps are modelled as association lists (`List (K × A)`) with unique-key
  update semantics (`alistInsert` overwrites); map reads with Go's zero-value
  default are modelled by `getD` with the zero of the value type.
* `resource.Quantity` is modelled as an exact integer (`ℤ`) in the working
  unit of its resource: milli-units for CPU, whole units otherwise.  The Go
  code consistently reads CPU quantities with `MilliValue()` and everything
  else with `Value()`, so the unit never changes inside a computation and the
  CPU / non-CPU branches of `resourceThreshold` compute the same integer
  function of that unit value.
* `float64` percentage arithmetic is modelled over `ℚ`; Go's `int64(f)`
  conversion (truncation toward zero) is `goTrunc`.
* External collaborators (the metrics oracle, the prometheus query backend,
  the pod lister, the `Evictor`) are inputs: plain functions or data passed
  to the embedded routines, exactly as wide as the interface the source
  consumes.
-/

set_option maxHeartbeats 1000000

namespace Descheduler

/-! ## Association-list primitives (the model of Go maps) -/

/-- First value bound to `key`, if any (Go map read, hit/miss distinguished). -/
def alistGet? {K A : Type} [DecidableEq K] : List (K × A) → K → Option A
  | [], _ => none
  | (k, a) :: tl, key => if k = key then some a else alistGet? tl key

/-- Go map assignment `m[k] = v`: overwrite the binding if present, append it
otherwise. -/
def alistInsert {K A : Type} [DecidableEq K] : List (K × A) → K → A → List (K × A)
  | [], key, v => [(key, v)]
  | (k, a) :: tl, key, v =>
    if k = key then (key, v) :: tl else (k, a) :: alistInsert tl key v

@[simp]
theorem alistGet?_nil {K A : Type} [DecidableEq K] (key : K) :
    alistGet? ([] : List (K × A)) key = none := rfl

@[simp]
theorem alistGet?_cons {K A : Type} [DecidableEq K] (k : K) (a : A)
    (tl : List (K × A)) (key : K) :
    alistGet? ((k, a) :: tl) key = if k = key then some a else alistGet? tl key := rfl

theorem alistGet?_insert_self {K A : Type} [DecidableEq K]
    (l : List (K × A)) (key : K) (v : A) :
    alistGet? (alistInsert l key v) key = some v := by
  induction l with
  | nil => simp [alistInsert]
  | cons hd tl ih =>
    obtain ⟨k, a⟩ := hd
    by_cases h : k = key
    · simp [alistInsert, h]
    · simp [alistInsert, h, ih]

theorem alistGet?_insert_ne {K A : Type} [DecidableEq K]
    (l : List (K × A)) (key key' : K) (v : A) (h : key ≠ key') :
    alistGet? (alistInsert l key v) key' = alistGet? l key' := by
  induction l with
  | nil => simp [alistInsert, h]
  | cons hd tl ih =>
    obtain ⟨k, a⟩ := hd
    by_cases hk : k = key
    · subst hk; simp [alistInsert, h]
    · simp only [alistInsert, if_neg hk, alistGet?_cons]
      by_cases hk' : k = key'
      · simp [hk']
      · simp [hk', ih]

/-- Lookup in an association list built by mapping a function over a key
list: any listed key maps to its computed value. -/
theorem alistGet?_map_of_mem {K A : Type} [DecidableEq K]
    (f : K → A) (keys : List K) (k : K) (hk : k ∈ keys) :
    alistGet? (keys.map fun r => (r, f r)) k = some (f k) := by
  induction keys with
  | nil => cases hk
  | cons hd tl ih =>
    rcases List.mem_cons.mp hk with h | h
    · subst h; simp [alistGet?]
    · by_cases hhd : hd = k
      · subst hhd; simp [alistGet?]
      · simp [alistGet?, hhd, ih h]

/-! ## Integer truncation (Go's `int64(f)` on a non-negative float) -/

/-- Go's conversion of a float to `int64` truncates toward zero. -/
def goTrunc (q : ℚ) : ℤ := if 0 ≤ q then ⌊q⌋ else ⌈q⌉

theorem goTrunc_nonneg {q : ℚ} (h : 0 ≤ q) : 0 ≤ goTrunc q := by
  rw [goTrunc, if_pos h]
  exact Int.floor_nonneg.mpr h

theorem goTrunc_mono_of_nonneg {a b : ℚ} (ha : 0 ≤ a) (hab : a ≤ b) :
    goTrunc a ≤ goTrunc b := by
  rw [goTrunc, goTrunc, if_pos ha, if_pos (ha.trans hab)]
  exact Int.floor_le_floor hab

theorem goTrunc_le_of_le_int {q : ℚ} {n : ℤ} (h0 : 0 ≤ q) (h : q ≤ (n : ℚ)) :
    goTrunc q ≤ n := by
  rw [goTrunc, if_pos h0]
  have := Int.floor_le_floor h
  simpa using this

/-! ## `pkg/api/types.go`

`Percentage` is a float; `ResourceThresholds` maps resource names to
percentages.  Percentages live in `ℚ` here. -/

abbrev ResourceName := String

abbrev Percentage := ℚ

/-- `api.ResourceThresholds`: a map from resource names to percentages. -/
abbrev ResourceThresholds := List (ResourceName × Percentage)

/-- Go map read with the zero default (`r[k]` on a missing key yields `0`). -/
def ResourceThresholds.get (r : ResourceThresholds) (k : ResourceName) : Percentage :=
  (alistGet? r k).getD 0

/-- `ResourceThresholds.Negative` (`pkg/api/types.go`): a new map with every
value negated. -/
def ResourceThresholds.Negative (r : ResourceThresholds) : ResourceThresholds :=
  r.map fun kv => (kv.1, -kv.2)

/-- `ResourceThresholds.Round` (`pkg/api/types.go`): every value rounded with
`math.Round` (round half away from zero). -/
def ResourceThresholds.Round (r : ResourceThresholds) : ResourceThresholds :=
  r.map fun kv => (kv.1, (round kv.2 : ℤ))

/-- Claim C8 --- `Negative` is an involution: applying it twice gives back a
map with the same key set and, for every resource key, the original value. -/
theorem negative_negative (r : ResourceThresholds) :
    r.Negative.Negative = r := by
  induction r with
  | nil => rfl
  | cons hd tl ih =>
    obtain ⟨k, v⟩ := hd
    simp [ResourceThresholds.Negative] at ih ⊢
    exact ih

/-! ## The threshold processor

Embeds the `thresholds` package.  The repository carries two copies of the
`NodeProcessor`: an older one (in `usageclients/nodeusage.go`'s trailing
`thresholds` chunk) whose `process` computes both threshold maps inline in a
single loop over nodes and resources, and a newer one (`src/unnamed/part_004`)
whose `process` delegates the per-node work to `thresholdsForNode`.  Both are
embedded below (`NodeProcessor.processOld`, `NodeProcessor.process`).

Only the slice of the usage-client interface that the processor consumes is
needed: `NodeCapacity` and `NodesAverageUsage`. -/

/-- A node, as far as the threshold processor looks at it: its name.  The
capacity is obtained through the usage client. -/
structure Node where
  name : String
deriving DecidableEq, Repr

/-- The value of one resource quantity in the working unit of its resource
(milli-units for CPU, whole units otherwise). -/
abbrev QuantityValue := ℤ

/-- A `v1.ResourceList` / `ReferencedResourceList` value: resource name to
quantity.  Reads use the Go zero default. -/
abbrev ResourceList := List (ResourceName × QuantityValue)

/-- Go map read with the zero-`Quantity` default (`capacity[name]`, and also
`ResourceList.Name(name, format)` which returns a zero quantity when the key
is absent). -/
def ResourceList.get (l : ResourceList) (k : ResourceName) : QuantityValue :=
  (alistGet? l k).getD 0

/-- The slice of `usageclients.Interface` consumed by the threshold
processor. -/
structure UsageClient where
  nodeCapacity : Node → ResourceList
  nodesAverageUsage : List Node → ResourceThresholds

/-- `thresholds.NodeThresholds`: low and high absolute quantities per
resource. -/
structure NodeThresholds where
  low : ResourceList
  high : ResourceList
deriving DecidableEq, Repr

/-- `thresholds.MinResourcePercentage`. -/
def MinResourcePercentage : Percentage := 0

/-- `thresholds.MaxResourcePercentage`. -/
def MaxResourcePercentage : Percentage := 100

/-- `thresholds.NodeProcessor`. -/
structure NodeProcessor where
  nodes : List Node
  lowThreshold : ResourceThresholds
  highThreshold : ResourceThresholds
  resourceNames : List ResourceName
  useDeviationThresholds : Bool
  usageClient : UsageClient

/-- `NodeProcessor.resourceThreshold`: the fraction of the node's capacity
given by a percentage, truncated to an integer quantity
(`int64(float64(threshold) * 0.01 * float64(capacity))`).  The Go CPU branch
applies the same fraction to `MilliValue()` and wraps it in a milli-unit
quantity; in the unit model of `QuantityValue` both branches are this one
function of the capacity's unit value. -/
def NodeProcessor.resourceThreshold (_ : NodeProcessor)
    (nodeCapacity : ResourceList) (resourceName : ResourceName)
    (threshold : Percentage) : QuantityValue :=
  goTrunc (threshold * (1 / 100) * (nodeCapacity.get resourceName : ℚ))

/-- `NodeProcessor.normalizePercentage`: clamp into `<0;100>`. -/
def NodeProcessor.normalizePercentage (_ : NodeProcessor) (percent : Percentage) :
    Percentage :=
  if percent > MaxResourcePercentage then MaxResourcePercentage
  else if percent < MinResourcePercentage then MinResourcePercentage
  else percent

/-- The body of the per-resource loop of `thresholdsForNode` (and of the older
inline `process`): the pair of low/high quantities assigned to one resource.
The three branches are, in source order: absolute mode; deviation mode with a
zero low threshold (both limits become the capacity); deviation mode
proper. -/
def NodeProcessor.thresholdPair (n : NodeProcessor) (capacity : ResourceList)
    (average : ResourceThresholds) (resourceName : ResourceName) :
    QuantityValue × QuantityValue :=
  if !n.useDeviationThresholds then
    (n.resourceThreshold capacity resourceName (n.lowThreshold.get resourceName),
     n.resourceThreshold capacity resourceName (n.highThreshold.get resourceName))
  else if n.lowThreshold.get resourceName = MinResourcePercentage then
    (capacity.get resourceName, capacity.get resourceName)
  else
    (n.resourceThreshold capacity resourceName
       (n.normalizePercentage (average.get resourceName - n.lowThreshold.get resourceName)),
     n.resourceThreshold capacity resourceName
       (n.normalizePercentage (average.get resourceName + n.highThreshold.get resourceName)))

/-- `NodeProcessor.thresholdsForNode` (the newer copy): build the low and high
maps over the resources in scope for one node. -/
def NodeProcessor.thresholdsForNode (n : NodeProcessor) (node : Node)
    (average : ResourceThresholds) : NodeThresholds :=
  let capacity := n.usageClient.nodeCapacity node
  { low := n.resourceNames.map fun r => (r, (n.thresholdPair capacity average r).1)
    high := n.resourceNames.map fun r => (r, (n.thresholdPair capacity average r).2) }

/-- `NodeProcessor.process` (the newer copy): compute the cluster average when
in deviation mode, then the thresholds of every node via
`thresholdsForNode`. -/
def NodeProcessor.process (n : NodeProcessor) : List (String × NodeThresholds) :=
  let average := if n.useDeviationThresholds then n.usageClient.nodesAverageUsage n.nodes else []
  n.nodes.map fun node => (node.name, n.thresholdsForNode node average)

/-- `NodeProcessor.process` (the older copy, `nodeusage.go` lines 197-251):
the same computation with the per-node, per-resource branch logic written
inline instead of delegated to `thresholdsForNode`. -/
def NodeProcessor.processOld (n : NodeProcessor) : List (String × NodeThresholds) :=
  let average := if n.useDeviationThresholds then n.usageClient.nodesAverageUsage n.nodes else []
  n.nodes.map fun node =>
    let nodeCapacity := n.usageClient.nodeCapacity node
    (node.name,
      { low := n.resourceNames.map fun resourceName =>
          (resourceName,
            if !n.useDeviationThresholds then
              n.resourceThreshold nodeCapacity resourceName (n.lowThreshold.get resourceName)
            else if n.lowThreshold.get resourceName = MinResourcePercentage then
              nodeCapacity.get resourceName
            else
              n.resourceThreshold nodeCapacity resourceName
                (n.normalizePercentage
                  (average.get resourceName - n.lowThreshold.get resourceName)))
        high := n.resourceNames.map fun resourceName =>
          (resourceName,
            if !n.useDeviationThresholds then
              n.resourceThreshold nodeCapacity resourceName (n.highThreshold.get resourceName)
            else if n.lowThreshold.get resourceName = MinResourcePercentage then
              nodeCapacity.get resourceName
            else
              n.resourceThreshold nodeCapacity resourceName
                (n.normalizePercentage
                  (average.get resourceName + n.highThreshold.get resourceName))) })

/-! Helper lemmas on the clamp and the threshold fraction. -/

theorem normalizePercentage_nonneg (n : NodeProcessor) (p : Percentage) :
    0 ≤ n.normalizePercentage p := by
  unfold NodeProcessor.normalizePercentage MaxResourcePercentage MinResourcePercentage
  split
  · norm_num
  · split
    · norm_num
    · rename_i h1 h2
      linarith [not_lt.mp h2]

theorem normalizePercentage_le_100 (n : NodeProcessor) (p : Percentage) :
    n.normalizePercentage p ≤ 100 := by
  unfold NodeProcessor.normalizePercentage MaxResourcePercentage MinResourcePercentage
  split
  · norm_num
  · split
    · norm_num
    · rename_i h1 h2
      linarith [not_lt.mp h1]

theorem normalizePercentage_mono (n : NodeProcessor) {p q : Percentage} (h : p ≤ q) :
    n.normalizePercentage p ≤ n.normalizePercentage q := by
  unfold NodeProcessor.normalizePercentage MaxResourcePercentage MinResourcePercentage
  rcases lt_or_le (100 : ℚ) p with hp | hp
  · rw [if_pos hp, if_pos (by linarith : q > 100)]
  · rw [if_neg (not_lt.mpr hp)]
    rcases lt_or_le p 0 with hp0 | hp0
    · rw [if_pos hp0]
      rcases lt_or_le (100 : ℚ) q with hq | hq
      · rw [if_pos hq]; norm_num
      · rw [if_neg (not_lt.mpr hq)]
        split <;> [norm_num; linarith]
    · rw [if_neg (not_lt.mpr hp0)]
      rcases lt_or_le (100 : ℚ) q with hq | hq
      · rw [if_pos hq]; linarith
      · rw [if_neg (not_lt.mpr hq), if_neg (not_lt.mpr (by linarith : (0:ℚ) ≤ q))]
        exact h

/-- The threshold fraction is non-negative, monotone in the percentage and
below capacity for percentages in `<0;100>` (capacity non-negative). -/
theorem resourceThreshold_nonneg (n : NodeProcessor) (cap : ResourceList)
    (r : ResourceName) {t : Percentage} (ht : 0 ≤ t) (hc : 0 ≤ cap.get r) :
    0 ≤ n.resourceThreshold cap r t := by
  apply goTrunc_nonneg
  have : (0 : ℚ) ≤ (cap.get r : ℚ) := by exact_mod_cast hc
  positivity

theorem resourceThreshold_mono (n : NodeProcessor) (cap : ResourceList)
    (r : ResourceName) {s t : Percentage} (hs : 0 ≤ s) (hst : s ≤ t)
    (hc : 0 ≤ cap.get r) :
    n.resourceThreshold cap r s ≤ n.resourceThreshold cap r t := by
  have hcq : (0 : ℚ) ≤ (cap.get r : ℚ) := by exact_mod_cast hc
  apply goTrunc_mono_of_nonneg
  · positivity
  · have h100 : (0 : ℚ) ≤ 1 / 100 := by norm_num
    nlinarith

theorem resourceThreshold_le_capacity (n : NodeProcessor) (cap : ResourceList)
    (r : ResourceName) {t : Percentage} (ht0 : 0 ≤ t) (ht : t ≤ 100)
    (hc : 0 ≤ cap.get r) :
    n.resourceThreshold cap r t ≤ cap.get r := by
  have hcq : (0 : ℚ) ≤ (cap.get r : ℚ) := by exact_mod_cast hc
  apply goTrunc_le_of_le_int
  · positivity
  · nlinarith

/-! ## Claims C2, C4 and C10 on the threshold processor -/

/-- A membership inversion for `process`: every produced entry comes from one
of the processor's nodes, with the thresholds of `thresholdsForNode`. -/
theorem mem_process {n : NodeProcessor} {p : String × NodeThresholds}
    (hp : p ∈ n.process) :
    ∃ node ∈ n.nodes,
      p = (node.name, n.thresholdsForNode node
        (if n.useDeviationThresholds then n.usageClient.nodesAverageUsage n.nodes else [])) := by
  unfold NodeProcessor.process at hp
  obtain ⟨node, hmem, heq⟩ := List.mem_map.mp hp
  exact ⟨node, hmem, heq.symm⟩

theorem thresholdsForNode_low_get {n : NodeProcessor} {node : Node}
    {average : ResourceThresholds} {r : ResourceName} (hr : r ∈ n.resourceNames) :
    (n.thresholdsForNode node average).low.get r =
      (n.thresholdPair (n.usageClient.nodeCapacity node) average r).1 := by
  unfold NodeProcessor.thresholdsForNode ResourceList.get
  rw [alistGet?_map_of_mem _ _ _ hr]
  rfl

theorem thresholdsForNode_high_get {n : NodeProcessor} {node : Node}
    {average : ResourceThresholds} {r : ResourceName} (hr : r ∈ n.resourceNames) :
    (n.thresholdsForNode node average).high.get r =
      (n.thresholdPair (n.usageClient.nodeCapacity node) average r).2 := by
  unfold NodeProcessor.thresholdsForNode ResourceList.get
  rw [alistGet?_map_of_mem _ _ _ hr]
  rfl

/-- The concrete processor refuting claim C2 as stated: absolute mode, one
node of capacity 100, low threshold 80%, high threshold 20% (both percentages
inside `[0;100]`, as the claim allows). -/
def c2Processor : NodeProcessor :=
  { nodes := [⟨"n1"⟩]
    lowThreshold := [("cpu", 80)]
    highThreshold := [("cpu", 20)]
    resourceNames := ["cpu"]
    useDeviationThresholds := false
    usageClient :=
      { nodeCapacity := fun _ => [("cpu", 100)]
        nodesAverageUsage := fun _ => [] } }

/-- Claim C2, counterexample --- with user percentages 80 (low) and 20 (high),
both in `[0;100]`, the processor computes `Low[cpu] = 80 > 20 = High[cpu]`:
the claimed `Low ≤ High` fails when the low percentage exceeds the high one. -/
theorem thresholds_order_counterexample :
    ∃ p ∈ c2Processor.process,
      p.2.low.get "cpu" = 80 ∧ p.2.high.get "cpu" = 20 ∧
      ¬ p.2.low.get "cpu" ≤ p.2.high.get "cpu" := by
  refine ⟨((⟨"n1"⟩ : Node).name, c2Processor.thresholdsForNode ⟨"n1"⟩ []), ?_, ?_, ?_, ?_⟩
  · unfold NodeProcessor.process c2Processor
    simp
  · rw [thresholdsForNode_low_get (by simp [c2Processor])]
    unfold c2Processor NodeProcessor.thresholdPair NodeProcessor.resourceThreshold
    norm_num [ResourceThresholds.get, ResourceList.get, alistGet?, goTrunc]
  · rw [thresholdsForNode_high_get (by simp [c2Processor])]
    unfold c2Processor NodeProcessor.thresholdPair NodeProcessor.resourceThreshold
    norm_num [ResourceThresholds.get, ResourceList.get, alistGet?, goTrunc]
  · rw [thresholdsForNode_low_get (by simp [c2Processor]),
      thresholdsForNode_high_get (by simp [c2Processor])]
    unfold c2Processor NodeProcessor.thresholdPair NodeProcessor.resourceThreshold
    norm_num [ResourceThresholds.get, ResourceList.get, alistGet?, goTrunc]

/-- Claim C2, amended --- for every node and resource in scope the thresholds
computed by the processor satisfy `0 ≤ Low[R] ≤ High[R] ≤ capacity[R]`, in
both absolute and deviation mode, for low/high percentages in `[0;100]`
provided additionally that `lowThreshold[R] ≤ highThreshold[R]` (the amendment
the counterexample forces; deviation mode needs no such proviso but tolerates
it). -/
theorem thresholds_in_bounds (n : NodeProcessor)
    (hlo : ∀ r ∈ n.resourceNames, 0 ≤ n.lowThreshold.get r ∧ n.lowThreshold.get r ≤ 100)
    (hhi : ∀ r ∈ n.resourceNames, 0 ≤ n.highThreshold.get r ∧ n.highThreshold.get r ≤ 100)
    (hle : ∀ r ∈ n.resourceNames, n.lowThreshold.get r ≤ n.highThreshold.get r)
    (hcap : ∀ node r, 0 ≤ (n.usageClient.nodeCapacity node).get r) :
    ∀ p ∈ n.process, ∀ r ∈ n.resourceNames,
      ∃ node ∈ n.nodes, p.1 = node.name ∧
        0 ≤ p.2.low.get r ∧ p.2.low.get r ≤ p.2.high.get r ∧
        p.2.high.get r ≤ (n.usageClient.nodeCapacity node).get r := by
  intro p hp r hr
  obtain ⟨node, hnode, rfl⟩ := mem_process hp
  refine ⟨node, hnode, rfl, ?_⟩
  rw [thresholdsForNode_low_get hr, thresholdsForNode_high_get hr]
  set cap := n.usageClient.nodeCapacity node with hcapdef
  set avg := (if n.useDeviationThresholds then n.usageClient.nodesAverageUsage n.nodes else [])
  obtain ⟨hlo0, hlo100⟩ := hlo r hr
  obtain ⟨hhi0, hhi100⟩ := hhi r hr
  have hcapr := hcap node r
  unfold NodeProcessor.thresholdPair
  by_cases hdev : n.useDeviationThresholds
  · simp only [hdev, Bool.not_true, Bool.false_eq_true, if_false]
    by_cases hz : n.lowThreshold.get r = MinResourcePercentage
    · simp only [hz, if_pos rfl]
      exact ⟨hcapr, le_refl _, le_refl _⟩
    · simp only [if_neg hz]
      refine ⟨?_, ?_, ?_⟩
      · exact resourceThreshold_nonneg n cap r (normalizePercentage_nonneg n _) hcapr
      · exact resourceThreshold_mono n cap r (normalizePercentage_nonneg n _)
          (normalizePercentage_mono n (by linarith)) hcapr
      · exact resourceThreshold_le_capacity n cap r (normalizePercentage_nonneg n _)
          (normalizePercentage_le_100 n _) hcapr
  · simp only [hdev, Bool.not_false, if_true]
    refine ⟨?_, ?_, ?_⟩
    · exact resourceThreshold_nonneg n cap r hlo0 hcapr
    · exact resourceThreshold_mono n cap r hlo0 (hle r hr) hcapr
    · exact resourceThreshold_le_capacity n cap r hhi0 hhi100 hcapr

/-- A concrete well-ordered processor used to witness the amended claim C2. -/
def c2WitnessProcessor : NodeProcessor :=
  { nodes := [⟨"n1"⟩]
    lowThreshold := [("cpu", 20)]
    highThreshold := [("cpu", 80)]
    resourceNames := ["cpu"]
    useDeviationThresholds := false
    usageClient :=
      { nodeCapacity := fun _ => [("cpu", 100)]
        nodesAverageUsage := fun _ => [] } }

/-- Witness for the amended claim C2, fully instantiated: the single node's
cpu thresholds of the concrete processor are ordered and below capacity. -/
theorem thresholds_in_bounds_witness :
    0 ≤ (c2WitnessProcessor.thresholdsForNode (Node.mk "n1") []).low.get "cpu" ∧
    (c2WitnessProcessor.thresholdsForNode (Node.mk "n1") []).low.get "cpu" ≤
      (c2WitnessProcessor.thresholdsForNode (Node.mk "n1") []).high.get "cpu" ∧
    (c2WitnessProcessor.thresholdsForNode (Node.mk "n1") []).high.get "cpu" ≤
      (c2WitnessProcessor.usageClient.nodeCapacity (Node.mk "n1")).get "cpu" := by
  have hlo : ∀ r ∈ c2WitnessProcessor.resourceNames,
      0 ≤ c2WitnessProcessor.lowThreshold.get r ∧
        c2WitnessProcessor.lowThreshold.get r ≤ 100 := by
    intro r hr
    simp only [c2WitnessProcessor, List.mem_singleton] at hr
    subst hr
    norm_num [ResourceThresholds.get, alistGet?, c2WitnessProcessor]
  have hhi : ∀ r ∈ c2WitnessProcessor.resourceNames,
      0 ≤ c2WitnessProcessor.highThreshold.get r ∧
        c2WitnessProcessor.highThreshold.get r ≤ 100 := by
    intro r hr
    simp only [c2WitnessProcessor, List.mem_singleton] at hr
    subst hr
    norm_num [ResourceThresholds.get, alistGet?, c2WitnessProcessor]
  have hle : ∀ r ∈ c2WitnessProcessor.resourceNames,
      c2WitnessProcessor.lowThreshold.get r ≤ c2WitnessProcessor.highThreshold.get r := by
    intro r hr
    simp only [c2WitnessProcessor, List.mem_singleton] at hr
    subst hr
    norm_num [ResourceThresholds.get, alistGet?, c2WitnessProcessor]
  have hcap : ∀ node r, 0 ≤ (c2WitnessProcessor.usageClient.nodeCapacity node).get r := by
    intro node r
    unfold c2WitnessProcessor ResourceList.get
    by_cases h : r = "cpu"
    · subst h; norm_num [alistGet?]
    · simp [alistGet?, Ne.symm h]
  have h := thresholds_in_bounds c2WitnessProcessor hlo hhi hle hcap
  have hp : (((Node.mk "n1").name,
      c2WitnessProcessor.thresholdsForNode (Node.mk "n1") []) :
        String × NodeThresholds) ∈ c2WitnessProcessor.process := by
    unfold NodeProcessor.process c2WitnessProcessor
    simp
  have hr : "cpu" ∈ c2WitnessProcessor.resourceNames := by
    simp [c2WitnessProcessor]
  obtain ⟨node, hnode, _, h0, h1, h2⟩ := h _ hp "cpu" hr
  have hn : node = Node.mk "n1" := by
    simpa [c2WitnessProcessor] using hnode
  subst hn
  exact ⟨h0, h1, h2⟩

/-! Claim C4 uses a second set of definitions written from the SPEC's words
(`clamp`, and the spec's deviation formulas), compared against the code's
computation. -/

/-- Spec's `clamp(x, 0, 100)`. -/
def specClamp (p : ℚ) : ℚ := max 0 (min 100 p)

/-- Spec's deviation-mode threshold: `capacity · clamp(pct, 0, 100) / 100`,
truncated to an integer unit. -/
def specDeviationQuantity (capacity : QuantityValue) (pct : ℚ) : QuantityValue :=
  goTrunc ((capacity : ℚ) * specClamp pct / 100)

theorem normalizePercentage_eq_specClamp (n : NodeProcessor) (p : Percentage) :
    n.normalizePercentage p = specClamp p := by
  unfold NodeProcessor.normalizePercentage specClamp MaxResourcePercentage MinResourcePercentage
  rcases lt_or_le (100 : ℚ) p with h1 | h1
  · rw [if_pos h1, min_eq_left h1.le, max_eq_right]
    norm_num
  · rw [if_neg (not_lt.mpr h1), min_eq_right h1]
    rcases lt_or_le p 0 with h2 | h2
    · rw [if_pos h2, max_eq_left h2.le]
    · rw [if_neg (not_lt.mpr h2), max_eq_right h2]

theorem resourceThreshold_norm_eq_spec (n : NodeProcessor) (cap : ResourceList)
    (r : ResourceName) (pct : ℚ) :
    n.resourceThreshold cap r (n.normalizePercentage pct) =
      specDeviationQuantity (cap.get r) pct := by
  unfold NodeProcessor.resourceThreshold specDeviationQuantity
  rw [normalizePercentage_eq_specClamp]
  congr 1
  ring

/-- Claim C4 --- in deviation mode, `process` feeds `thresholdsForNode` the
cluster average from `NodesAverageUsage`, and for every node and resource in
scope: a zero low threshold makes both limits the node's full capacity;
otherwise the low limit is `capacity · clamp(avg − low, 0, 100) / 100` and the
high limit is `capacity · clamp(avg + high, 0, 100) / 100`, the clamping
happening before the conversion to an absolute quantity. -/
theorem deviation_mode_thresholds (n : NodeProcessor)
    (hdev : n.useDeviationThresholds = true) :
    n.process = n.nodes.map (fun node =>
      (node.name, n.thresholdsForNode node (n.usageClient.nodesAverageUsage n.nodes))) ∧
    ∀ node : Node, ∀ r ∈ n.resourceNames,
      (n.thresholdsForNode node (n.usageClient.nodesAverageUsage n.nodes)).low.get r =
        (if n.lowThreshold.get r = 0 then
          (n.usageClient.nodeCapacity node).get r
        else
          specDeviationQuantity ((n.usageClient.nodeCapacity node).get r)
            ((n.usageClient.nodesAverageUsage n.nodes).get r - n.lowThreshold.get r)) ∧
      (n.thresholdsForNode node (n.usageClient.nodesAverageUsage n.nodes)).high.get r =
        (if n.lowThreshold.get r = 0 then
          (n.usageClient.nodeCapacity node).get r
        else
          specDeviationQuantity ((n.usageClient.nodeCapacity node).get r)
            ((n.usageClient.nodesAverageUsage n.nodes).get r + n.highThreshold.get r)) := by
  constructor
  · unfold NodeProcessor.process
    rw [if_pos hdev]
  · intro node r hr
    rw [thresholdsForNode_low_get hr, thresholdsForNode_high_get hr]
    unfold NodeProcessor.thresholdPair
    rw [hdev]
    simp only [Bool.not_true, Bool.false_eq_true, if_false]
    by_cases hz : n.lowThreshold.get r = MinResourcePercentage
    · rw [MinResourcePercentage] at hz
      simp only [hz, MinResourcePercentage, if_pos rfl]
      exact ⟨rfl, rfl⟩
    · rw [MinResourcePercentage] at hz
      simp only [MinResourcePercentage, if_neg hz]
      exact ⟨resourceThreshold_norm_eq_spec n _ r _, resourceThreshold_norm_eq_spec n _ r _⟩

/-- A concrete deviation-mode processor used as the C4 witness. -/
def c4Processor : NodeProcessor :=
  { nodes := [⟨"n1"⟩, ⟨"n2"⟩]
    lowThreshold := [("cpu", 10)]
    highThreshold := [("cpu", 10)]
    resourceNames := ["cpu"]
    useDeviationThresholds := true
    usageClient :=
      { nodeCapacity := fun _ => [("cpu", 1000)]
        nodesAverageUsage := fun _ => [("cpu", 50)] } }

/-- Witness for claim C4 at a concrete deviation-mode processor. -/
theorem deviation_mode_thresholds_witness :
    c4Processor.process = c4Processor.nodes.map (fun node =>
      (node.name, c4Processor.thresholdsForNode node
        (c4Processor.usageClient.nodesAverageUsage c4Processor.nodes))) ∧
    ∀ node : Node, ∀ r ∈ c4Processor.resourceNames,
      (c4Processor.thresholdsForNode node
          (c4Processor.usageClient.nodesAverageUsage c4Processor.nodes)).low.get r =
        (if c4Processor.lowThreshold.get r = 0 then
          (c4Processor.usageClient.nodeCapacity node).get r
        else
          specDeviationQuantity ((c4Processor.usageClient.nodeCapacity node).get r)
            ((c4Processor.usageClient.nodesAverageUsage c4Processor.nodes).get r -
              c4Processor.lowThreshold.get r)) ∧
      (c4Processor.thresholdsForNode node
          (c4Processor.usageClient.nodesAverageUsage c4Processor.nodes)).high.get r =
        (if c4Processor.lowThreshold.get r = 0 then
          (c4Processor.usageClient.nodeCapacity node).get r
        else
          specDeviationQuantity ((c4Processor.usageClient.nodeCapacity node).get r)
            ((c4Processor.usageClient.nodesAverageUsage c4Processor.nodes).get r +
              c4Processor.highThreshold.get r)) :=
  deviation_mode_thresholds c4Processor rfl

/-- Claim C10 --- the two copies of the threshold processor compute identical
results: the older inline `process` and the newer `process` that delegates to
`thresholdsForNode` agree on every input. -/
theorem processOld_eq_process (n : NodeProcessor) : n.processOld = n.process := by
  unfold NodeProcessor.processOld NodeProcessor.process NodeProcessor.thresholdsForNode
  apply List.map_congr_left
  intro node _
  refine congrArg _ ?_
  unfold NodeProcessor.thresholdPair
  simp only [NodeThresholds.mk.injEq]
  constructor <;>
  · apply List.map_congr_left
    intro r _
    refine congrArg _ ?_
    by_cases hdev : n.useDeviationThresholds <;>
      by_cases hz : n.lowThreshold.get r = MinResourcePercentage <;>
        simp [hdev, hz]

/-! ## The classifier (`classifier/classifier.go`)

`Classify(values, limits, classifiers...)` walks, for each entry of `values`,
the pairs `(limits[key][i], classifiers[i])` in order; the first classifier
returning `true` captures the entry in bucket `i`.  A classifier may fail,
which aborts the whole call.  The length check at the top only ranges over the
keys of `limits`; a key of `values` absent from `limits` is walked against
Go's zero value for the limit list (`nil`, here `[]`).

`values` is a Go map, so its keys are unique; it is modelled as an entry list
(`List (K × V)`), with the uniqueness a hypothesis where a claim needs it. -/

/-- The two ways `Classify` can fail: the `ErrLimitsMismatch` sentinel, or an
error returned by one of the classifier callbacks. -/
inductive ClassifyError where
  | limitsMismatch
  | classifierFailed
deriving DecidableEq, Repr

section ClassifierSection

variable {K V : Type} [DecidableEq K]

/-- `classifier.Classifier`: a fallible predicate on a value and a limit. -/
abbrev Classifier (V : Type) := V → V → Except Unit Bool

/-- The inner loop of `Classify`: walk the `(limit, classifier)` pairs in
order; stop at the first classifier that returns `true` (its index is the
bucket), abort on a classifier error, return `none` when none matches. -/
def classifyWalk (usage : V) : List (V × Classifier V) → Except Unit (Option ℕ)
  | [] => Except.ok none
  | (limit, c) :: rest =>
    match c usage limit with
    | Except.error e => Except.error e
    | Except.ok true => Except.ok (some 0)
    | Except.ok false => (classifyWalk usage rest).map (Option.map (· + 1))

/-- Whether a `(limit, classifier)` pair accepts the value outright. -/
def hits (usage : V) (p : V × Classifier V) : Bool :=
  match p.2 usage p.1 with
  | Except.ok true => true
  | _ => false

/-- Index of the first accepting `(limit, classifier)` pair — the error-free
meaning of `classifyWalk`. -/
def firstTrue (usage : V) : List (V × Classifier V) → Option ℕ
  | [] => none
  | p :: rest => if hits usage p then some 0 else (firstTrue usage rest).map (· + 1)

/-- The `(limit, classifier)` pairs walked for one entry, and the bucket it
lands in (if any), assuming no classifier error. -/
def rowPairs (limits : List (K × List V)) (cs : List (Classifier V)) (k : K) :
    List (V × Classifier V) :=
  ((alistGet? limits k).getD []).zip cs

def rowIdx (limits : List (K × List V)) (cs : List (Classifier V)) (kv : K × V) :
    Option ℕ :=
  firstTrue kv.2 (rowPairs limits cs kv.1)

/-- `result[i][index] = usage`: append the entry to bucket `i` (bucket keys
stay unique whenever the `values` keys are). -/
def classifyInsert (result : List (List (K × V))) (i : ℕ) (kv : K × V) :
    List (List (K × V)) :=
  result.set i (result.getD i [] ++ [kv])

/-- The outer loop of `Classify` over the entries of `values`. -/
def classifyFold (limits : List (K × List V)) (cs : List (Classifier V)) :
    List (K × V) → List (List (K × V)) → Except ClassifyError (List (List (K × V)))
  | [], result => Except.ok result
  | kv :: rest, result =>
    match classifyWalk kv.2 (rowPairs limits cs kv.1) with
    | Except.error _ => Except.error ClassifyError.classifierFailed
    | Except.ok none => classifyFold limits cs rest result
    | Except.ok (some i) => classifyFold limits cs rest (classifyInsert result i kv)

/-- `classifier.Classify`: check every limit list (of the `limits` map only)
against the classifier count, then bucket the entries of `values`. -/
def Classify (values : List (K × V)) (limits : List (K × List V))
    (cs : List (Classifier V)) : Except ClassifyError (List (List (K × V))) :=
  if limits.all (fun kl => kl.2.length == cs.length) then
    classifyFold limits cs values (List.replicate cs.length [])
  else Except.error ClassifyError.limitsMismatch

/-! Characterization lemmas for the walk and the fold. -/

theorem classifyWalk_ok {usage : V} {pairs : List (V × Classifier V)}
    {o : Option ℕ} (h : classifyWalk usage pairs = Except.ok o) :
    firstTrue usage pairs = o := by
  induction pairs generalizing o with
  | nil =>
    simp only [classifyWalk] at h
    cases h
    rfl
  | cons p rest ih =>
    obtain ⟨limit, c⟩ := p
    simp only [classifyWalk] at h
    rcases hc : c usage limit with e | b
    · rw [hc] at h; cases h
    · rw [hc] at h
      cases b with
      | true =>
        cases h
        simp [firstTrue, hits, hc]
      | false =>
        rcases hw : classifyWalk usage rest with e | o'
        · rw [hw] at h; cases h
        · rw [hw] at h
          simp only [Except.map] at h
          cases h
          simp [firstTrue, hits, hc, ih hw]

theorem classifyWalk_isOk {usage : V} {pairs : List (V × Classifier V)}
    (hok : ∀ p ∈ pairs, ∃ b, p.2 usage p.1 = Except.ok b) :
    ∃ o, classifyWalk usage pairs = Except.ok o := by
  induction pairs with
  | nil => exact ⟨none, rfl⟩
  | cons p rest ih =>
    obtain ⟨limit, c⟩ := p
    obtain ⟨b, hb⟩ := hok (limit, c) (List.mem_cons_self _ _)
    have hb' : c usage limit = Except.ok b := hb
    obtain ⟨o', ho'⟩ := ih fun q hq => hok q (List.mem_cons_of_mem _ hq)
    cases b with
    | true => exact ⟨some 0, by simp [classifyWalk, hb']⟩
    | false => exact ⟨o'.map (· + 1), by simp [classifyWalk, hb', ho', Except.map]⟩

theorem firstTrue_lt_length {usage : V} {pairs : List (V × Classifier V)} {i : ℕ}
    (h : firstTrue usage pairs = some i) : i < pairs.length := by
  induction pairs generalizing i with
  | nil => cases h
  | cons p rest ih =>
    simp only [firstTrue] at h
    by_cases hp : hits usage p
    · rw [if_pos hp] at h
      cases h
      simp
    · rw [if_neg hp] at h
      rcases ho : firstTrue usage rest with _ | j
      · rw [ho] at h; cases h
      · rw [ho] at h
        simp only [Option.map] at h
        cases h
        simpa using Nat.succ_lt_succ (ih ho)

theorem rowIdx_lt_length {limits : List (K × List V)} {cs : List (Classifier V)}
    {kv : K × V} {i : ℕ} (h : rowIdx limits cs kv = some i) : i < cs.length := by
  have := firstTrue_lt_length h
  calc i < (rowPairs limits cs kv.1).length := this
    _ ≤ cs.length := by
      unfold rowPairs
      rw [List.length_zip]
      exact min_le_right _ _

/-! List helpers for the bucket accounting. -/

theorem list_getD_set_self {A : Type} (l : List A) (j : ℕ) (a d : A)
    (h : j < l.length) : (l.set j a).getD j d = a := by
  induction l generalizing j with
  | nil => cases h
  | cons x xs ih =>
    cases j with
    | zero => rfl
    | succ m => simpa [List.getD] using ih m (by simpa using h)

theorem list_getD_set_ne {A : Type} (l : List A) (i j : ℕ) (a d : A)
    (h : i ≠ j) : (l.set j a).getD i d = l.getD i d := by
  induction l generalizing i j with
  | nil => rfl
  | cons x xs ih =>
    cases j with
    | zero =>
      cases i with
      | zero => exact absurd rfl h
      | succ m => rfl
    | succ mj =>
      cases i with
      | zero => rfl
      | succ mi => simpa [List.getD] using ih mi mj (fun hc => h (by rw [hc]))

theorem list_set_of_le {A : Type} (l : List A) (j : ℕ) (a : A)
    (h : l.length ≤ j) : l.set j a = l := by
  induction l generalizing j with
  | nil => rfl
  | cons x xs ih =>
    cases j with
    | zero => cases h
    | succ m => simpa using ih m (by simpa using h)

theorem list_getD_of_le {A : Type} (l : List A) (i : ℕ) (d : A)
    (h : l.length ≤ i) : l.getD i d = d := by
  induction l generalizing i with
  | nil => cases i <;> rfl
  | cons x xs ih =>
    cases i with
    | zero => cases h
    | succ m => simpa [List.getD] using ih m (by simpa using h)

theorem list_getD_replicate {A : Type} (n i : ℕ) (d : A) :
    (List.replicate n d).getD i d = d := by
  induction n generalizing i with
  | zero => cases i <;> rfl
  | succ m ih => cases i with
    | zero => rfl
    | succ j => exact ih j

/-- In a list whose keys are unique, a key determines its value. -/
theorem nodup_keys_value_eq {K V : Type} [DecidableEq K] {l : List (K × V)}
    (h : (l.map Prod.fst).Nodup) {k : K} {v v' : V}
    (h1 : (k, v) ∈ l) (h2 : (k, v') ∈ l) : v = v' := by
  induction l with
  | nil => cases h1
  | cons hd tl ih =>
    rw [List.map_cons, List.nodup_cons] at h
    rcases List.mem_cons.mp h1 with he1 | ht1 <;> rcases List.mem_cons.mp h2 with he2 | ht2
    · rw [← he1] at he2
      injection he2 with hk hv
      exact hv.symm
    · exfalso
      exact h.1 (he1 ▸ List.mem_map.mpr ⟨(k, v'), ht2, rfl⟩)
    · exfalso
      exact h.1 (he2 ▸ List.mem_map.mpr ⟨(k, v), ht1, rfl⟩)
    · exact ih h.2 ht1 ht2

/-- Error-free runs of the fold: the result exists and bucket `i` holds the
prior contents followed by the entries whose first accepting classifier is
`i`, in input order. -/
theorem classifyFold_char (limits : List (K × List V)) (cs : List (Classifier V)) :
    ∀ (values : List (K × V)) (result : List (List (K × V))),
      (∀ kv ∈ values, ∀ p ∈ rowPairs limits cs kv.1, ∃ b, p.2 kv.2 p.1 = Except.ok b) →
      (∀ kv ∈ values, ∀ i, rowIdx limits cs kv = some i → i < result.length) →
      ∃ R, classifyFold limits cs values result = Except.ok R ∧
        R.length = result.length ∧
        ∀ i, R.getD i [] =
          result.getD i [] ++
            values.filter (fun kv => decide (rowIdx limits cs kv = some i)) := by
  intro values
  induction values with
  | nil =>
    intro result _ _
    exact ⟨result, rfl, rfl, fun i => by simp⟩
  | cons kv rest ih =>
    intro result hok hi
    obtain ⟨o, ho⟩ := classifyWalk_isOk (hok kv (List.mem_cons_self _ _))
    have hrow : rowIdx limits cs kv = o := classifyWalk_ok ho
    have hok' : ∀ kv ∈ rest, ∀ p ∈ rowPairs limits cs kv.1, ∃ b, p.2 kv.2 p.1 = Except.ok b :=
      fun x hx => hok x (List.mem_cons_of_mem _ hx)
    cases o with
    | none =>
      obtain ⟨R, hR, hlen, hchar⟩ :=
        ih result hok' (fun x hx => hi x (List.mem_cons_of_mem _ hx))
      refine ⟨R, ?_, hlen, ?_⟩
      · simpa [classifyFold, ho] using hR
      · intro i
        rw [hchar i]
        congr 1
        simp [List.filter, hrow]
    | some j =>
      have hj : j < result.length := hi kv (List.mem_cons_self _ _) j hrow
      have hi' : ∀ x ∈ rest, ∀ i, rowIdx limits cs x = some i →
          i < (classifyInsert result j kv).length := by
        intro x hx i hxi
        have := hi x (List.mem_cons_of_mem _ hx) i hxi
        simpa [classifyInsert] using this
      obtain ⟨R, hR, hlen, hchar⟩ := ih (classifyInsert result j kv) hok' hi'
      refine ⟨R, ?_, ?_, ?_⟩
      · simpa [classifyFold, ho] using hR
      · rw [hlen]; simp [classifyInsert]
      · intro i
        rw [hchar i]
        by_cases hij : i = j
        · subst hij
          rw [show (classifyInsert result i kv).getD i [] = result.getD i [] ++ [kv] from
              list_getD_set_self _ _ _ _ hj]
          simp [List.filter, hrow, List.append_assoc]
        · rw [show (classifyInsert result j kv).getD i [] = result.getD i [] from
              list_getD_set_ne _ _ _ _ _ hij]
          have : ¬ rowIdx limits cs kv = some i := by
            rw [hrow]; intro hc; exact hij (by injection hc with h; exact h.symm)
          simp [List.filter, this]

omit [DecidableEq K] in
/-- Each processed entry grows the total bucket content by at most one. -/
theorem totalLen_classifyInsert (result : List (List (K × V))) (j : ℕ) (kv : K × V) :
    ((classifyInsert result j kv).map List.length).sum ≤
      (result.map List.length).sum + 1 := by
  induction result generalizing j with
  | nil =>
    simp [classifyInsert]
  | cons x xs ih =>
    cases j with
    | zero => simp [classifyInsert, List.getD]; omega
    | succ m =>
      have h1 := ih m
      have he : classifyInsert (x :: xs) (m + 1) kv = x :: classifyInsert xs m kv := rfl
      rw [he]
      simp only [List.map_cons, List.sum_cons]
      omega

theorem classifyFold_totalLen (limits : List (K × List V)) (cs : List (Classifier V)) :
    ∀ (values : List (K × V)) (result R : List (List (K × V))),
      classifyFold limits cs values result = Except.ok R →
      (R.map List.length).sum ≤ (result.map List.length).sum + values.length := by
  intro values
  induction values with
  | nil =>
    intro result R h
    cases h
    simp
  | cons kv rest ih =>
    intro result R h
    unfold classifyFold at h
    rcases hw : classifyWalk kv.2 (rowPairs limits cs kv.1) with e | o
    · rw [hw] at h; cases h
    · rw [hw] at h
      cases o with
      | none =>
        have := ih result R h
        simp only [List.length_cons]
        omega
      | some j =>
        have := ih (classifyInsert result j kv) R h
        have hins := totalLen_classifyInsert result j kv
        simp only [List.length_cons]
        omega

/-- Provenance of every bucket entry: it was already in the accumulator or it
is an input entry whose first accepting classifier is that bucket. -/
theorem classifyFold_mem (limits : List (K × List V)) (cs : List (Classifier V)) :
    ∀ (values : List (K × V)) (result R : List (List (K × V))),
      classifyFold limits cs values result = Except.ok R →
      ∀ (i : ℕ) (x : K × V), x ∈ R.getD i [] →
        x ∈ result.getD i [] ∨ (x ∈ values ∧ rowIdx limits cs x = some i) := by
  intro values
  induction values with
  | nil =>
    intro result R h i x hx
    cases h
    exact Or.inl hx
  | cons kv rest ih =>
    intro result R h i x hx
    unfold classifyFold at h
    rcases hw : classifyWalk kv.2 (rowPairs limits cs kv.1) with e | o
    · rw [hw] at h; cases h
    · rw [hw] at h
      have hrow : rowIdx limits cs kv = o := classifyWalk_ok hw
      cases o with
      | none =>
        rcases ih result R h i x hx with hin | ⟨hmem, hidx⟩
        · exact Or.inl hin
        · exact Or.inr ⟨List.mem_cons_of_mem _ hmem, hidx⟩
      | some j =>
        rcases ih (classifyInsert result j kv) R h i x hx with hin | ⟨hmem, hidx⟩
        · by_cases hij : i = j
          · subst hij
            by_cases hjl : i < result.length
            · rw [show (classifyInsert result i kv).getD i [] = result.getD i [] ++ [kv] from
                  list_getD_set_self _ _ _ _ hjl] at hin
              rcases List.mem_append.mp hin with h1 | h1
              · exact Or.inl h1
              · rw [List.mem_singleton] at h1
                subst h1
                exact Or.inr ⟨List.mem_cons_self _ _, hrow⟩
            · have hnoop : classifyInsert result i kv = result := by
                unfold classifyInsert
                exact list_set_of_le _ _ _ (le_of_not_lt hjl)
              rw [hnoop] at hin
              exact Or.inl hin
          · rw [show (classifyInsert result j kv).getD i [] = result.getD i [] from
                list_getD_set_ne _ _ _ _ _ hij] at hin
            exact Or.inl hin
        · exact Or.inr ⟨List.mem_cons_of_mem _ hmem, hidx⟩

/-- The fold can fail only inside a classifier, never with the
limits-mismatch sentinel. -/
theorem classifyFold_ne_mismatch (limits : List (K × List V)) (cs : List (Classifier V)) :
    ∀ (values : List (K × V)) (result : List (List (K × V))),
      classifyFold limits cs values result ≠
        Except.error ClassifyError.limitsMismatch := by
  intro values
  induction values with
  | nil => intro result h; cases h
  | cons kv rest ih =>
    intro result h
    unfold classifyFold at h
    rcases hw : classifyWalk kv.2 (rowPairs limits cs kv.1) with e | o
    · rw [hw] at h; cases h
    · rw [hw] at h
      cases o with
      | none => exact ih result h
      | some j => exact ih (classifyInsert result j kv) h

/-- When every limit list of the `limits` map matches the classifier count,
the mismatch check passes and `Classify` is the fold. -/
theorem Classify_eq_fold (values : List (K × V)) (limits : List (K × List V))
    (cs : List (Classifier V)) (hlen : ∀ kl ∈ limits, kl.2.length = cs.length) :
    Classify values limits cs =
      classifyFold limits cs values (List.replicate cs.length []) := by
  have hall : (limits.all fun kl => kl.2.length == cs.length) = true := by
    rw [List.all_eq_true]
    intro kl hkl
    exact beq_iff_eq.mpr (hlen kl hkl)
  simp [Classify, hall]

/-- Claim C3 --- when every limit list of `limits` has as many entries as
there are classifiers, no classifier errs on the walked pairs, and the input
keys are unique (they come from a Go map): `Classify` succeeds, returns one
bucket per classifier, an entry sits in bucket `i` exactly when classifier
`i` is the first (in argument order) to accept the entry's value against its
`i`-th limit (`rowIdx`), every key is in at most one bucket, and the bucket
sizes sum to at most the number of inputs. -/
theorem classify_bucket_spec (values : List (K × V)) (limits : List (K × List V))
    (cs : List (Classifier V))
    (hlen : ∀ kl ∈ limits, kl.2.length = cs.length)
    (hok : ∀ kv ∈ values, ∀ p ∈ rowPairs limits cs kv.1, ∃ b, p.2 kv.2 p.1 = Except.ok b)
    (hnd : (values.map Prod.fst).Nodup) :
    ∃ buckets, Classify values limits cs = Except.ok buckets ∧
      buckets.length = cs.length ∧
      (∀ (i : ℕ) (kv : K × V), kv ∈ buckets.getD i [] ↔
        kv ∈ values ∧ rowIdx limits cs kv = some i) ∧
      (∀ (k : K) (i j : ℕ), (∃ v, (k, v) ∈ buckets.getD i []) →
        (∃ v, (k, v) ∈ buckets.getD j []) → i = j) ∧
      (buckets.map List.length).sum ≤ values.length := by
  have hi : ∀ kv ∈ values, ∀ i, rowIdx limits cs kv = some i →
      i < (List.replicate cs.length ([] : List (K × V))).length := by
    intro kv _ i hidx
    simpa using rowIdx_lt_length hidx
  obtain ⟨R, hR, hRlen, hchar⟩ := classifyFold_char limits cs values _ hok hi
  have hmem : ∀ (i : ℕ) (kv : K × V), kv ∈ R.getD i [] ↔
      kv ∈ values ∧ rowIdx limits cs kv = some i := by
    intro i kv
    rw [hchar i, list_getD_replicate]
    simp [List.mem_filter]
  refine ⟨R, by rw [Classify_eq_fold values limits cs hlen]; exact hR,
    by simpa using hRlen, hmem, ?_, ?_⟩
  · rintro k i j ⟨v, hvi⟩ ⟨v', hvj⟩
    obtain ⟨hv_mem, hv_idx⟩ := (hmem i (k, v)).mp hvi
    obtain ⟨hv'_mem, hv'_idx⟩ := (hmem j (k, v')).mp hvj
    have : v = v' := nodup_keys_value_eq hnd hv_mem hv'_mem
    subst this
    rw [hv_idx] at hv'_idx
    exact Option.some.inj hv'_idx
  · have := classifyFold_totalLen limits cs values _ R hR
    simpa using this

/-- Claim C9 --- a key of `values` absent from `limits` cannot trip the
mismatch check (which ranges over `limits` only) nor produce a classifier
error (its walked pair list is empty, Go's zero value for the missing limit
list), and it lands in no bucket. -/
theorem classify_absent_key (values : List (K × V)) (limits : List (K × List V))
    (cs : List (Classifier V))
    (hlen : ∀ kl ∈ limits, kl.2.length = cs.length)
    (k : K) (hk : alistGet? limits k = none) :
    Classify values limits cs ≠ Except.error ClassifyError.limitsMismatch ∧
    rowPairs limits cs k = [] ∧
    (∀ buckets, Classify values limits cs = Except.ok buckets →
      ∀ (i : ℕ) (v : V), (k, v) ∉ buckets.getD i []) := by
  refine ⟨?_, ?_, ?_⟩
  · rw [Classify_eq_fold values limits cs hlen]
    exact classifyFold_ne_mismatch limits cs values _
  · simp [rowPairs, hk]
  · intro buckets hb i v hmem
    rw [Classify_eq_fold values limits cs hlen] at hb
    rcases classifyFold_mem limits cs values _ buckets hb i (k, v) hmem with hin | ⟨_, hidx⟩
    · rw [list_getD_replicate] at hin
      cases hin
    · have hnone : rowIdx limits cs (k, v) = none := by
        simp [rowIdx, rowPairs, hk, firstTrue]
      rw [hnone] at hidx
      cases hidx

end ClassifierSection

/-- The scenario S1 inputs: two nodes, limits `[4, 6]` each, classifiers
`<` and `>` (the classifier test fixtures of the repository). -/
def c3Values : List (String × ℕ) := [("n1", 2), ("n2", 8)]

def c3Limits : List (String × List ℕ) := [("n1", [4, 6]), ("n2", [4, 6])]

def c3Classifiers : List (Classifier ℕ) :=
  [fun usage limit => Except.ok (decide (usage < limit)),
   fun usage limit => Except.ok (decide (usage > limit))]

/-- Witness for claim C3 at the scenario S1 inputs. -/
theorem classify_bucket_spec_witness :
    ∃ buckets, Classify c3Values c3Limits c3Classifiers = Except.ok buckets ∧
      buckets.length = c3Classifiers.length ∧
      (∀ (i : ℕ) (kv : String × ℕ), kv ∈ buckets.getD i [] ↔
        kv ∈ c3Values ∧ rowIdx c3Limits c3Classifiers kv = some i) ∧
      (∀ (k : String) (i j : ℕ), (∃ v, (k, v) ∈ buckets.getD i []) →
        (∃ v, (k, v) ∈ buckets.getD j []) → i = j) ∧
      (buckets.map List.length).sum ≤ c3Values.length := by
  apply classify_bucket_spec
  · intro kl hkl
    simp only [c3Limits, List.mem_cons, List.not_mem_nil, or_false] at hkl
    rcases hkl with rfl | rfl <;> rfl
  · intro kv hkv p hp
    simp only [c3Values, List.mem_cons, List.not_mem_nil, or_false] at hkv
    rcases hkv with rfl | rfl <;>
    · simp only [rowPairs, c3Limits, c3Classifiers, alistGet?] at hp
      norm_num at hp
      rcases hp with rfl | rfl <;> exact ⟨_, rfl⟩
  · simp [c3Values]

/-- Witness for claim C9: key `nx` of the values is absent from the limits
map. -/
theorem classify_absent_key_witness :
    Classify [("nx", (5 : ℕ))] [("n1", [4])]
        [fun usage limit => Except.ok (decide (usage < limit))] ≠
      Except.error ClassifyError.limitsMismatch ∧
    rowPairs [("n1", [4])]
        [fun usage limit => Except.ok (decide (usage < limit))] "nx" = [] ∧
    (∀ buckets, Classify [("nx", (5 : ℕ))] [("n1", [4])]
        [fun usage limit => Except.ok (decide (usage < limit))] = Except.ok buckets →
      ∀ (i : ℕ) (v : ℕ), ("nx", v) ∉ buckets.getD i []) := by
  apply classify_absent_key
  · intro kl hkl
    simp only [List.mem_cons, List.not_mem_nil, or_false] at hkl
    subst hkl
    rfl
  · rfl

/-! ## The usage clients' `Sync` (`usageclients/prometheus.go`,
`usageclients/actual.go`)

Both clients keep two maps, `pods` and `nodeUtilization`, reset them at the
top of every `Sync` call, and repopulate them in a loop over the input nodes.
The external collaborators are inputs: the prometheus query outcome, the
metrics collector reply, and the pod lister (`ListPodsOnANode`). -/

/-- A pod, identified by name; `Sync` only stores pods, never inspects
them. -/
abbrev Pod := String

/-- The observable state of a usage client: the `pods` and `nodeUtilization`
maps that `Pods(node)` and `NodeUtilization(node)` read. -/
structure UsageClientState where
  pods : List (String × List Pod)
  nodeUtilization : List (String × ResourceList)
deriving DecidableEq, Repr

/-- The empty state both `Sync`s reset to on entry. -/
def UsageClientState.empty : UsageClientState :=
  { pods := [], nodeUtilization := [] }

/-- The failure modes of the two `Sync` routines. -/
inductive SyncError where
  | queryFailed
  | notVector
  | missingInstanceKey
  | valueOutOfRange (node : String)
  | missingMetricEntry (node : String)
  | podListFailed (node : String)
  | missingNodeMetrics (node : String)
  | missingResource (resourceName : ResourceName) (node : String)
  | collectorFailed
deriving DecidableEq, Repr

/-- `usageclients.MetricResource`: the synthetic resource name of the query
source. -/
def MetricResource : ResourceName := "MetricResource"

/-- `v1.ResourcePods`. -/
def resourcePods : ResourceName := "pods"

/-- One sample of a prometheus vector: the optional `instance` label and the
sample value. -/
structure Sample where
  instanceLabel : Option String
  value : ℚ
deriving DecidableEq, Repr

/-- The prometheus query reply, after decoding: a vector of samples or a
result of some other type (Go's `results.Type() != model.ValVector`). -/
inductive PromQueryResult where
  | vector (samples : List Sample)
  | nonVector (typeName : String)
deriving DecidableEq, Repr

/-- The first loop of `PrometheusUsageClient.Sync`: fold the vector samples
into `nodeUsages`.  Each sample needs the `instance` label and a value inside
`<0;1>`; the usage recorded is `int64(value*100)` under `MetricResource`.
Later samples for the same instance overwrite earlier ones (map
assignment). -/
def buildNodeUsages : List Sample → List (String × ResourceList) →
    Except SyncError (List (String × ResourceList))
  | [], acc => Except.ok acc
  | s :: rest, acc =>
    match s.instanceLabel with
    | none => Except.error SyncError.missingInstanceKey
    | some name =>
      if s.value < 0 ∨ s.value > 1 then
        Except.error (SyncError.valueOutOfRange name)
      else
        buildNodeUsages rest
          (alistInsert acc name [(MetricResource, goTrunc (s.value * 100))])

/-- The second loop of `PrometheusUsageClient.Sync`: every input node must
appear in `nodeUsages`; its pods are listed and both client maps receive the
node's entries.  A failure returns immediately, keeping whatever the loop
stored for the earlier nodes. -/
def promSyncNodes (podsFn : String → Except Unit (List Pod))
    (nodeUsages : List (String × ResourceList)) :
    List Node → UsageClientState → UsageClientState × Option SyncError
  | [], st => (st, none)
  | node :: rest, st =>
    match alistGet? nodeUsages node.name with
    | none => (st, some (SyncError.missingMetricEntry node.name))
    | some u =>
      match podsFn node.name with
      | Except.error _ => (st, some (SyncError.podListFailed node.name))
      | Except.ok pods =>
        promSyncNodes podsFn nodeUsages rest
          { pods := alistInsert st.pods node.name pods
            nodeUtilization := alistInsert st.nodeUtilization node.name u }

/-- `PrometheusUsageClient.Sync`.  The prior client state is an argument
because the accessors read whatever `Sync` leaves behind; the function
overwrites both maps with fresh empty ones before doing anything else, which
is why the result never depends on `prior`. -/
def promSync (_prior : UsageClientState) (nodes : List Node)
    (queryResult : Except Unit PromQueryResult)
    (podsFn : String → Except Unit (List Pod)) :
    UsageClientState × Option SyncError :=
  match queryResult with
  | Except.error _ => (UsageClientState.empty, some SyncError.queryFailed)
  | Except.ok (PromQueryResult.nonVector _) =>
    (UsageClientState.empty, some SyncError.notVector)
  | Except.ok (PromQueryResult.vector samples) =>
    match buildNodeUsages samples [] with
    | Except.error e => (UsageClientState.empty, some e)
    | Except.ok nodeUsages => promSyncNodes podsFn nodeUsages nodes UsageClientState.empty

/-- The node loop of `ActualUsageClient.Sync`: list the node's pods, find the
node in the collector reply, inject the `pods` count, require every resource
in scope to be present, then store both entries.  A failure returns
immediately, keeping whatever the loop stored for the earlier nodes. -/
def actualSyncNodes (resourceNames : List ResourceName)
    (podsFn : String → Except Unit (List Pod))
    (nodesUsage : List (String × ResourceList)) :
    List Node → UsageClientState → UsageClientState × Option SyncError
  | [], st => (st, none)
  | node :: rest, st =>
    match podsFn node.name with
    | Except.error _ => (st, some (SyncError.podListFailed node.name))
    | Except.ok pods =>
      match alistGet? nodesUsage node.name with
      | none => (st, some (SyncError.missingNodeMetrics node.name))
      | some nu =>
        match resourceNames.find?
            (fun r => (alistGet? (alistInsert nu resourcePods (pods.length : ℤ)) r).isNone) with
        | some r => (st, some (SyncError.missingResource r node.name))
        | none =>
          actualSyncNodes resourceNames podsFn nodesUsage rest
            { pods := alistInsert st.pods node.name pods
              nodeUtilization := alistInsert st.nodeUtilization node.name
                (alistInsert nu resourcePods (pods.length : ℤ)) }

/-- `ActualUsageClient.Sync`: reset both maps, fetch all nodes' usage from
the collector in one call, then run the node loop. -/
def actualSync (_prior : UsageClientState) (resourceNames : List ResourceName)
    (nodes : List Node)
    (collectorResult : Except Unit (List (String × ResourceList)))
    (podsFn : String → Except Unit (List Pod)) :
    UsageClientState × Option SyncError :=
  match collectorResult with
  | Except.error _ => (UsageClientState.empty, some SyncError.collectorFailed)
  | Except.ok nodesUsage =>
    actualSyncNodes resourceNames podsFn nodesUsage nodes UsageClientState.empty

/-! ## Claim C1: what a failed `Sync` leaves behind -/

/-- Stale state from an earlier call, used to exercise the reset. -/
def c1Prior : UsageClientState :=
  { pods := [("stale", ["p0"])], nodeUtilization := [("stale", [(MetricResource, 7)])] }

/-- One vector sample, for node `n1` only. -/
def c1Samples : List Sample := [{ instanceLabel := some "n1", value := 1 / 2 }]

def c1Nodes : List Node := [Node.mk "n1", Node.mk "n2"]

def c1PodsFn : String → Except Unit (List Pod) := fun _ => Except.ok []

/-- Claim C1, counterexample --- a prometheus `Sync` over nodes `n1, n2` with
a sample for `n1` only fails (at `n2`), yet a subsequent accessor observes
the utilization and pod entries for `n1` populated during the failed call:
the failure is not transactional with respect to the per-node loop. -/
theorem sync_partial_state_counterexample :
    (promSync c1Prior c1Nodes (Except.ok (PromQueryResult.vector c1Samples)) c1PodsFn).2 =
      some (SyncError.missingMetricEntry "n2") ∧
    alistGet?
      (promSync c1Prior c1Nodes
        (Except.ok (PromQueryResult.vector c1Samples)) c1PodsFn).1.nodeUtilization "n1" =
      some [(MetricResource, 50)] ∧
    alistGet?
      (promSync c1Prior c1Nodes
        (Except.ok (PromQueryResult.vector c1Samples)) c1PodsFn).1.pods "n1" =
      some [] := by
  norm_num [promSync, buildNodeUsages, promSyncNodes, alistInsert, alistGet?, c1Prior,
    c1Samples, c1Nodes, c1PodsFn, UsageClientState.empty, goTrunc, MetricResource]
  rfl

/-- Both maps of the state reached by the prometheus node loop hold entries
only for names the state already had or nodes of this call. -/
theorem promSyncNodes_absent (podsFn : String → Except Unit (List Pod))
    (usages : List (String × ResourceList)) :
    ∀ (nodes : List Node) (st : UsageClientState) (name : String),
      alistGet? st.pods name = none → alistGet? st.nodeUtilization name = none →
      name ∉ nodes.map Node.name →
      alistGet? (promSyncNodes podsFn usages nodes st).1.pods name = none ∧
      alistGet? (promSyncNodes podsFn usages nodes st).1.nodeUtilization name = none := by
  intro nodes
  induction nodes with
  | nil => intro st name h1 h2 _; exact ⟨h1, h2⟩
  | cons node rest ih =>
    intro st name h1 h2 hname
    have hne : node.name ≠ name := by
      intro hc
      exact hname (by rw [← hc]; exact List.mem_cons_self _ _)
    have hrest : name ∉ rest.map Node.name := by
      intro hc
      exact hname (List.mem_cons_of_mem _ hc)
    unfold promSyncNodes
    rcases hu : alistGet? usages node.name with _ | u
    · exact ⟨h1, h2⟩
    · rcases hp : podsFn node.name with e | pods
      · exact ⟨h1, h2⟩
      · exact ih _ name (by rw [alistGet?_insert_ne _ _ _ _ hne]; exact h1)
          (by rw [alistGet?_insert_ne _ _ _ _ hne]; exact h2) hrest

/-- Both maps of the state reached by the metrics-server node loop hold
entries only for names the state already had or nodes of this call. -/
theorem actualSyncNodes_absent (resourceNames : List ResourceName)
    (podsFn : String → Except Unit (List Pod))
    (nodesUsage : List (String × ResourceList)) :
    ∀ (nodes : List Node) (st : UsageClientState) (name : String),
      alistGet? st.pods name = none → alistGet? st.nodeUtilization name = none →
      name ∉ nodes.map Node.name →
      alistGet? (actualSyncNodes resourceNames podsFn nodesUsage nodes st).1.pods name = none ∧
      alistGet?
        (actualSyncNodes resourceNames podsFn nodesUsage nodes st).1.nodeUtilization name =
        none := by
  intro nodes
  induction nodes with
  | nil => intro st name h1 h2 _; exact ⟨h1, h2⟩
  | cons node rest ih =>
    intro st name h1 h2 hname
    have hne : node.name ≠ name := by
      intro hc
      exact hname (by rw [← hc]; exact List.mem_cons_self _ _)
    have hrest : name ∉ rest.map Node.name := by
      intro hc
      exact hname (List.mem_cons_of_mem _ hc)
    unfold actualSyncNodes
    split
    · exact ⟨h1, h2⟩
    · split
      · exact ⟨h1, h2⟩
      · split
        · exact ⟨h1, h2⟩
        · refine ih _ name ?_ ?_ hrest
          · rw [alistGet?_insert_ne _ _ _ _ hne]; exact h1
          · rw [alistGet?_insert_ne _ _ _ _ hne]; exact h2

/-- Claim C1, amended --- each `Sync` call (prometheus and metrics-server)
overwrites the client state with fresh maps before anything else, so its
outcome, and hence everything an accessor can observe afterwards, is
independent of the state left by previous calls, and accessors observe
entries only for names among this call's input nodes; a failed `Sync` may,
however, leave the entries populated for nodes processed before the failure
visible (see the counterexample). -/
theorem sync_clears_previous_state
    (prior prior2 : UsageClientState) (nodes : List Node)
    (queryResult : Except Unit PromQueryResult)
    (podsFn : String → Except Unit (List Pod))
    (resourceNames : List ResourceName)
    (collectorResult : Except Unit (List (String × ResourceList))) :
    promSync prior nodes queryResult podsFn = promSync prior2 nodes queryResult podsFn ∧
    actualSync prior resourceNames nodes collectorResult podsFn =
      actualSync prior2 resourceNames nodes collectorResult podsFn ∧
    (∀ name, name ∉ nodes.map Node.name →
      alistGet? (promSync prior nodes queryResult podsFn).1.pods name = none ∧
      alistGet? (promSync prior nodes queryResult podsFn).1.nodeUtilization name = none) ∧
    (∀ name, name ∉ nodes.map Node.name →
      alistGet? (actualSync prior resourceNames nodes collectorResult podsFn).1.pods name =
        none ∧
      alistGet?
        (actualSync prior resourceNames nodes collectorResult podsFn).1.nodeUtilization name =
        none) := by
  refine ⟨rfl, rfl, ?_, ?_⟩
  · intro name hname
    unfold promSync
    split
    · exact ⟨rfl, rfl⟩
    · exact ⟨rfl, rfl⟩
    · split
      · exact ⟨rfl, rfl⟩
      · exact promSyncNodes_absent podsFn _ nodes UsageClientState.empty name rfl rfl hname
  · intro name hname
    unfold actualSync
    split
    · exact ⟨rfl, rfl⟩
    · exact actualSyncNodes_absent resourceNames podsFn _ nodes
        UsageClientState.empty name rfl rfl hname

/-- Witness for the amended claim C1 at concrete inputs: after a prometheus
`Sync` over node `n1` that finds no sample, the stale name from the prior
state is no longer observable in either client. -/
theorem sync_clears_previous_state_witness :
    alistGet? (promSync c1Prior [Node.mk "n1"]
      (Except.ok (PromQueryResult.vector [])) c1PodsFn).1.pods "stale" = none ∧
    alistGet? (promSync c1Prior [Node.mk "n1"]
      (Except.ok (PromQueryResult.vector [])) c1PodsFn).1.nodeUtilization "stale" = none ∧
    alistGet? (actualSync c1Prior [] [Node.mk "n1"]
      (Except.ok []) c1PodsFn).1.pods "stale" = none ∧
    alistGet? (actualSync c1Prior [] [Node.mk "n1"]
      (Except.ok []) c1PodsFn).1.nodeUtilization "stale" = none := by
  have h := sync_clears_previous_state c1Prior UsageClientState.empty [Node.mk "n1"]
    (Except.ok (PromQueryResult.vector [])) c1PodsFn [] (Except.ok [])
  have hstale : "stale" ∉ ([Node.mk "n1"] : List Node).map Node.name := by
    simp
  exact ⟨(h.2.2.1 "stale" hstale).1, (h.2.2.1 "stale" hstale).2,
    (h.2.2.2 "stale" hstale).1, (h.2.2.2 "stale" hstale).2⟩

/-! ## Claim C5: the prometheus `Sync` error conditions -/

theorem alistGet?_insert_isSome {K A : Type} [DecidableEq K]
    (l : List (K × A)) (k key : K) (v : A) :
    (alistGet? (alistInsert l k v) key).isSome ↔
      key = k ∨ (alistGet? l key).isSome := by
  by_cases h : key = k
  · subst h
    rw [alistGet?_insert_self]
    simp
  · rw [alistGet?_insert_ne _ _ _ _ fun hc => h hc.symm]
    simp [h]

theorem alistGet?_insert_cases {K A : Type} [DecidableEq K]
    {l : List (K × A)} {k key : K} {v u : A}
    (h : alistGet? (alistInsert l k v) key = some u) :
    (key = k ∧ u = v) ∨ alistGet? l key = some u := by
  by_cases hk : key = k
  · subst hk
    rw [alistGet?_insert_self] at h
    exact Or.inl ⟨rfl, (Option.some.inj h).symm⟩
  · rw [alistGet?_insert_ne _ _ _ _ fun hc => hk hc.symm] at h
    exact Or.inr h

/-- The sample loop errs exactly when some sample lacks the `instance` label
or has a value outside `<0;1>`. -/
theorem buildNodeUsages_error_iff :
    ∀ (samples : List Sample) (acc : List (String × ResourceList)),
      (∃ e, buildNodeUsages samples acc = Except.error e) ↔
        (∃ s ∈ samples, s.instanceLabel = none) ∨
        (∃ s ∈ samples, s.value < 0 ∨ s.value > 1) := by
  intro samples
  induction samples with
  | nil =>
    intro acc
    simp [buildNodeUsages]
  | cons s rest ih =>
    intro acc
    rcases hl : s.instanceLabel with _ | name
    · constructor
      · intro _
        exact Or.inl ⟨s, List.mem_cons_self _ _, hl⟩
      · intro _
        exact ⟨SyncError.missingInstanceKey, by simp [buildNodeUsages, hl]⟩
    · by_cases hv : s.value < 0 ∨ s.value > 1
      · constructor
        · intro _
          exact Or.inr ⟨s, List.mem_cons_self _ _, hv⟩
        · intro _
          refine ⟨SyncError.valueOutOfRange name, ?_⟩
          simp only [buildNodeUsages, hl]
          rw [if_pos hv]
      · have heq : buildNodeUsages (s :: rest) acc = buildNodeUsages rest
            (alistInsert acc name [(MetricResource, goTrunc (s.value * 100))]) := by
          simp only [buildNodeUsages, hl]
          rw [if_neg hv]
        rw [heq, ih _]
        constructor
        · rintro (⟨s', hs', h'⟩ | ⟨s', hs', h'⟩)
          · exact Or.inl ⟨s', List.mem_cons_of_mem _ hs', h'⟩
          · exact Or.inr ⟨s', List.mem_cons_of_mem _ hs', h'⟩
        · rintro (⟨s', hs', h'⟩ | ⟨s', hs', h'⟩)
          · rcases List.mem_cons.mp hs' with rfl | hs''
            · rw [hl] at h'; cases h'
            · exact Or.inl ⟨s', hs'', h'⟩
          · rcases List.mem_cons.mp hs' with rfl | hs''
            · exact absurd h' hv
            · exact Or.inr ⟨s', hs'', h'⟩

/-- The keys of the usage map the sample loop returns: a name is present
exactly when it was already in the accumulator or some sample bears it as
`instance` label. -/
theorem buildNodeUsages_keys :
    ∀ (samples : List Sample) (acc usages : List (String × ResourceList)),
      buildNodeUsages samples acc = Except.ok usages → ∀ name,
      ((alistGet? usages name).isSome ↔
        (alistGet? acc name).isSome ∨ ∃ s ∈ samples, s.instanceLabel = some name) := by
  intro samples
  induction samples with
  | nil =>
    intro acc usages h name
    cases h
    simp
  | cons s rest ih =>
    intro acc usages h name
    rcases hl : s.instanceLabel with _ | nm
    · simp only [buildNodeUsages, hl] at h
      cases h
    · by_cases hv : s.value < 0 ∨ s.value > 1
      · simp only [buildNodeUsages, hl] at h
        rw [if_pos hv] at h
        cases h
      · simp only [buildNodeUsages, hl] at h
        rw [if_neg hv] at h
        rw [ih _ _ h name, alistGet?_insert_isSome]
        constructor
        · rintro ((rfl | hacc) | ⟨s', hs', h'⟩)
          · exact Or.inr ⟨s, List.mem_cons_self _ _, by rw [hl]⟩
          · exact Or.inl hacc
          · exact Or.inr ⟨s', List.mem_cons_of_mem _ hs', h'⟩
        · rintro (hacc | ⟨s', hs', h'⟩)
          · exact Or.inl (Or.inr hacc)
          · rcases List.mem_cons.mp hs' with rfl | hs''
            · rw [hl] at h'
              exact Or.inl (Or.inl (Option.some.inj h').symm)
            · exact Or.inr ⟨s', hs'', h'⟩

/-- What a value of the usage map the sample loop returns looks like: the
truncation of `v * 100` under `MetricResource` for some in-range `v`. -/
def promUsageValue (u : ResourceList) : Prop :=
  ∃ v : ℚ, 0 ≤ v ∧ v ≤ 1 ∧ u = [(MetricResource, goTrunc (v * 100))]

theorem buildNodeUsages_values :
    ∀ (samples : List Sample) (acc usages : List (String × ResourceList)),
      buildNodeUsages samples acc = Except.ok usages →
      (∀ name u, alistGet? acc name = some u → promUsageValue u) →
      ∀ name u, alistGet? usages name = some u → promUsageValue u := by
  intro samples
  induction samples with
  | nil =>
    intro acc usages h hacc
    cases h
    exact hacc
  | cons s rest ih =>
    intro acc usages h hacc
    rcases hl : s.instanceLabel with _ | nm
    · simp only [buildNodeUsages, hl] at h
      cases h
    · by_cases hv : s.value < 0 ∨ s.value > 1
      · simp only [buildNodeUsages, hl] at h
        rw [if_pos hv] at h
        cases h
      · simp only [buildNodeUsages, hl] at h
        rw [if_neg hv] at h
        push_neg at hv
        refine ih _ _ h ?_
        intro name u hu
        rcases alistGet?_insert_cases hu with ⟨rfl, rfl⟩ | hacc'
        · exact ⟨s.value, hv.1, hv.2, rfl⟩
        · exact hacc name u hacc'

/-- With a healthy pod lister, the node loop errs exactly when some input
node is missing from the usage map. -/
theorem promSyncNodes_error_iff (podsFn : String → Except Unit (List Pod))
    (usages : List (String × ResourceList))
    (hpods : ∀ name, ∃ ps, podsFn name = Except.ok ps) :
    ∀ (nodes : List Node) (st : UsageClientState),
      (promSyncNodes podsFn usages nodes st).2.isSome ↔
        ∃ node ∈ nodes, alistGet? usages node.name = none := by
  intro nodes
  induction nodes with
  | nil =>
    intro st
    simp [promSyncNodes]
  | cons node rest ih =>
    intro st
    rcases hu : alistGet? usages node.name with _ | u1
    · constructor
      · intro _
        exact ⟨node, List.mem_cons_self _ _, hu⟩
      · intro _
        simp [promSyncNodes, hu]
    · obtain ⟨ps, hp⟩ := hpods node.name
      have heq : promSyncNodes podsFn usages (node :: rest) st =
          promSyncNodes podsFn usages rest
            { pods := alistInsert st.pods node.name ps
              nodeUtilization := alistInsert st.nodeUtilization node.name u1 } := by
        simp only [promSyncNodes, hu, hp]
      rw [heq, ih _]
      constructor
      · rintro ⟨nd, hnd, h⟩
        exact ⟨nd, List.mem_cons_of_mem _ hnd, h⟩
      · rintro ⟨nd, hnd, h⟩
        rcases List.mem_cons.mp hnd with rfl | hnd'
        · rw [hu] at h
          cases h
        · exact ⟨nd, hnd', h⟩

/-- An entry that agrees with the usage map survives the rest of the node
loop (later writes for the same name re-store the same usage value). -/
theorem promSyncNodes_lookup_persist (podsFn : String → Except Unit (List Pod))
    (usages : List (String × ResourceList)) :
    ∀ (nodes : List Node) (st : UsageClientState) (name : String) (u : ResourceList),
      alistGet? st.nodeUtilization name = some u →
      alistGet? usages name = some u →
      alistGet? (promSyncNodes podsFn usages nodes st).1.nodeUtilization name = some u := by
  intro nodes
  induction nodes with
  | nil =>
    intro st name u h1 _
    exact h1
  | cons node rest ih =>
    intro st name u h1 h2
    rcases hu : alistGet? usages node.name with _ | u1
    · simp only [promSyncNodes, hu]
      exact h1
    · rcases hp : podsFn node.name with e | ps
      · simp only [promSyncNodes, hu, hp]
        exact h1
      · simp only [promSyncNodes, hu, hp]
        refine ih _ name u ?_ h2
        by_cases hn : node.name = name
        · subst hn
          rw [hu] at h2
          rw [alistGet?_insert_self, h2]
        · rw [alistGet?_insert_ne _ _ _ _ hn]
          exact h1

/-- On success, each input node's stored utilization is its entry of the
usage map built from the samples. -/
theorem promSyncNodes_success_lookup (podsFn : String → Except Unit (List Pod))
    (usages : List (String × ResourceList)) :
    ∀ (nodes : List Node) (st : UsageClientState),
      (promSyncNodes podsFn usages nodes st).2 = none →
      ∀ node ∈ nodes, ∃ u, alistGet? usages node.name = some u ∧
        alistGet? (promSyncNodes podsFn usages nodes st).1.nodeUtilization node.name =
          some u := by
  intro nodes
  induction nodes with
  | nil =>
    intro st _ node hnode
    cases hnode
  | cons node rest ih =>
    intro st hsucc nd hnd
    rcases hu : alistGet? usages node.name with _ | u1
    · exfalso
      simp only [promSyncNodes, hu] at hsucc
      cases hsucc
    · rcases hp : podsFn node.name with e | ps
      · exfalso
        simp only [promSyncNodes, hu, hp] at hsucc
        cases hsucc
      · have heq : promSyncNodes podsFn usages (node :: rest) st =
            promSyncNodes podsFn usages rest
              { pods := alistInsert st.pods node.name ps
                nodeUtilization := alistInsert st.nodeUtilization node.name u1 } := by
          simp only [promSyncNodes, hu, hp]
        rw [heq] at hsucc
        rcases List.mem_cons.mp hnd with rfl | hnd'
        · refine ⟨u1, hu, ?_⟩
          rw [heq]
          refine promSyncNodes_lookup_persist podsFn usages rest _ nd.name u1 ?_ hu
          exact alistGet?_insert_self _ _ _
        · rw [heq]
          exact ih _ hsucc nd hnd'

/-- Claim C5 --- with the remote query decoded and a healthy pod lister, the
prometheus `Sync` fails iff the reply is not a vector, or some sample lacks
the `instance` label, or some sample value lies outside `[0;1]`, or some
input node has no sample; and on success every input node's utilization is
recorded under `MetricResource` as a whole-unit quantity in `[0;100]`. -/
theorem promSync_error_characterization
    (prior : UsageClientState) (nodes : List Node) (samples : List Sample)
    (podsFn : String → Except Unit (List Pod))
    (hpods : ∀ name, ∃ ps, podsFn name = Except.ok ps) :
    ((promSync prior nodes (Except.ok (PromQueryResult.vector samples)) podsFn).2.isSome ↔
      (∃ s ∈ samples, s.instanceLabel = none) ∨
      (∃ s ∈ samples, s.value < 0 ∨ s.value > 1) ∨
      (∃ node ∈ nodes, ∀ s ∈ samples, s.instanceLabel ≠ some node.name)) ∧
    (∀ t, (promSync prior nodes (Except.ok (PromQueryResult.nonVector t)) podsFn).2.isSome) ∧
    ((promSync prior nodes (Except.ok (PromQueryResult.vector samples)) podsFn).2 = none →
      ∀ node ∈ nodes, ∃ u q,
        alistGet? (promSync prior nodes
            (Except.ok (PromQueryResult.vector samples)) podsFn).1.nodeUtilization node.name =
          some u ∧
        alistGet? u MetricResource = some q ∧ 0 ≤ q ∧ q ≤ 100) := by
  refine ⟨?_, fun t => rfl, ?_⟩
  · rcases hb : buildNodeUsages samples [] with e | usages
    · have hdisj := (buildNodeUsages_error_iff samples []).mp ⟨e, hb⟩
      have hsome : (promSync prior nodes
          (Except.ok (PromQueryResult.vector samples)) podsFn).2.isSome := by
        simp only [promSync, hb]
        rfl
      rw [iff_true_intro hsome]
      simp only [true_iff]
      exact hdisj.imp id Or.inl
    · have heq : promSync prior nodes (Except.ok (PromQueryResult.vector samples)) podsFn =
          promSyncNodes podsFn usages nodes UsageClientState.empty := by
        simp only [promSync, hb]
      rw [heq, promSyncNodes_error_iff podsFn usages hpods nodes UsageClientState.empty]
      have hno : ¬ ((∃ s ∈ samples, s.instanceLabel = none) ∨
          (∃ s ∈ samples, s.value < 0 ∨ s.value > 1)) := by
        intro hc
        obtain ⟨e, he⟩ := (buildNodeUsages_error_iff samples []).mpr hc
        rw [hb] at he
        cases he
      constructor
      · rintro ⟨node, hnode, hmiss⟩
        refine Or.inr (Or.inr ⟨node, hnode, ?_⟩)
        intro s hs hlab
        have : (alistGet? usages node.name).isSome := by
          rw [buildNodeUsages_keys samples [] usages hb node.name]
          exact Or.inr ⟨s, hs, hlab⟩
        rw [hmiss] at this
        cases this
      · rintro (h1 | h2 | ⟨node, hnode, hnolab⟩)
        · exact absurd (Or.inl h1) hno
        · exact absurd (Or.inr h2) hno
        · refine ⟨node, hnode, ?_⟩
          rcases hx : alistGet? usages node.name with _ | u
          · rfl
          · exfalso
            have : (alistGet? usages node.name).isSome := by rw [hx]; rfl
            rw [buildNodeUsages_keys samples [] usages hb node.name] at this
            rcases this with hemp | ⟨s, hs, hlab⟩
            · cases hemp
            · exact hnolab s hs hlab
  · intro hsucc node hnode
    rcases hb : buildNodeUsages samples [] with e | usages
    · exfalso
      simp only [promSync, hb] at hsucc
      cases hsucc
    · have heq : promSync prior nodes (Except.ok (PromQueryResult.vector samples)) podsFn =
          promSyncNodes podsFn usages nodes UsageClientState.empty := by
        simp only [promSync, hb]
      rw [heq] at hsucc ⊢
      obtain ⟨u, hu, hfinal⟩ :=
        promSyncNodes_success_lookup podsFn usages nodes UsageClientState.empty hsucc node hnode
      obtain ⟨v, hv0, hv1, rfl⟩ :=
        buildNodeUsages_values samples [] usages hb (by intro name u h; cases h) node.name u hu
      refine ⟨_, goTrunc (v * 100), hfinal, ?_, ?_, ?_⟩
      · simp [alistGet?]
      · exact goTrunc_nonneg (by positivity)
      · refine goTrunc_le_of_le_int (by positivity) ?_
        push_cast
        nlinarith

/-- Witness for claim C5: one node, one in-range sample carrying its name. -/
theorem promSync_error_characterization_witness :
    ((promSync UsageClientState.empty [Node.mk "n1"]
        (Except.ok (PromQueryResult.vector [Sample.mk (some "n1") 1]))
        (fun _ => Except.ok [])).2.isSome ↔
      (∃ s ∈ [Sample.mk (some "n1") 1], s.instanceLabel = none) ∨
      (∃ s ∈ [Sample.mk (some "n1") 1], s.value < 0 ∨ s.value > 1) ∨
      (∃ node ∈ [Node.mk "n1"], ∀ s ∈ [Sample.mk (some "n1") 1],
        s.instanceLabel ≠ some node.name)) ∧
    (∀ t, (promSync UsageClientState.empty [Node.mk "n1"]
        (Except.ok (PromQueryResult.nonVector t)) (fun _ => Except.ok [])).2.isSome) ∧
    ((promSync UsageClientState.empty [Node.mk "n1"]
        (Except.ok (PromQueryResult.vector [Sample.mk (some "n1") 1]))
        (fun _ => Except.ok [])).2 = none →
      ∀ node ∈ [Node.mk "n1"], ∃ u q,
        alistGet? (promSync UsageClientState.empty [Node.mk "n1"]
            (Except.ok (PromQueryResult.vector [Sample.mk (some "n1") 1]))
            (fun _ => Except.ok [])).1.nodeUtilization node.name = some u ∧
        alistGet? u MetricResource = some q ∧ 0 ≤ q ∧ q ≤ 100) :=
  promSync_error_characterization UsageClientState.empty [Node.mk "n1"]
    [Sample.mk (some "n1") 1] (fun _ => Except.ok []) (fun _ => ⟨[], rfl⟩)

/-! ## The eviction loop (`evictPods`, `evictPodsFromSourceNodes`)

The external collaborators are plain functions of the pod: the taint check
(`PodToleratesTaints` against the destination taints), the pre-eviction
filter (already composed with the namespace exclusion), `PodUsage` of the
usage client, and the `Evictor`.  The loop's observable effects are the node
usage map, the shared headroom map (`totalAvailableUsage`) and the sequence
of successfully evicted pods (the successful `Evictor.Evict` calls). -/

/-- The outcome of one `Evictor.Evict` call. -/
inductive EvictOutcome where
  | ok
  | nodeLimit
  | totalLimit
  | other
deriving DecidableEq, Repr

/-- The error `evictPods` returns (`nil` is `none`). -/
inductive EvictErr where
  | nodeLimit
  | totalLimit
deriving DecidableEq, Repr

/-- The outcome of one `PodUsage` call. -/
inductive PodUsageResult where
  | usage (u : ResourceList)
  | notSupported
  | otherErr
deriving DecidableEq, Repr

/-- The external collaborators consumed by the eviction loop. -/
structure EvictCtx where
  tolerates : Pod → Bool
  preFilter : Pod → Bool
  podUsage : Pod → PodUsageResult
  evict : Pod → EvictOutcome

/-- The mutable state of one `evictPods` call: the source node's usage map,
the shared headroom map, and the pods evicted so far. -/
structure EvictState where
  nodeUsage : ResourceList
  headroom : ResourceList
  evicted : List Pod
deriving DecidableEq, Repr

/-- The amount subtracted for one resource after a successful eviction:
`1` for the `Pods` resource, the pod's usage otherwise (Go reads missing
entries as zero-valued quantities). -/
def podDelta (podU : ResourceList) (name : ResourceName) : ℤ :=
  if name = resourcePods then 1 else (alistGet? podU name).getD 0

/-- `nodeInfo.Usage[name].Sub(...)` over the keys of the headroom map. -/
def subFromUsage (headroomKeys : List ResourceName) (podU usage : ResourceList) :
    ResourceList :=
  usage.map fun kv =>
    if kv.1 ∈ headroomKeys then (kv.1, kv.2 - podDelta podU kv.1) else kv

/-- `totalAvailableUsage[name].Sub(...)` over its own keys. -/
def subHeadroom (headroom podU : ResourceList) : ResourceList :=
  headroom.map fun kv => (kv.1, kv.2 - podDelta podU kv.1)

/-- The candidate loop inside `evictPods`.  Per candidate, in source order:
skip if it tolerates no destination or fails the pre-eviction filter; a
`PodUsage` failure other than `NotSupported` skips the candidate;
`NotSupported` arms single-eviction mode.  Then `Evict`: success in
single-eviction mode leaves the node at once (no usage/headroom update);
success otherwise subtracts the pod's usage from the node usage and the
headroom and re-checks the continuation condition; `NodeLimitError` and
`TotalLimitError` return that error; any other eviction error skips the
candidate. -/
def evictLoop (ctx : EvictCtx) (cond : ResourceList → ResourceList → Bool) :
    List Pod → EvictState → EvictState × Option EvictErr
  | [], st => (st, none)
  | pod :: rest, st =>
    if ¬ ctx.tolerates pod then evictLoop ctx cond rest st
    else if ¬ ctx.preFilter pod then evictLoop ctx cond rest st
    else
      match ctx.podUsage pod with
      | PodUsageResult.otherErr => evictLoop ctx cond rest st
      | PodUsageResult.notSupported =>
        match ctx.evict pod with
        | EvictOutcome.ok => ({ st with evicted := st.evicted ++ [pod] }, none)
        | EvictOutcome.nodeLimit => (st, some EvictErr.nodeLimit)
        | EvictOutcome.totalLimit => (st, some EvictErr.totalLimit)
        | EvictOutcome.other => evictLoop ctx cond rest st
      | PodUsageResult.usage podU =>
        match ctx.evict pod with
        | EvictOutcome.ok =>
          if ¬ cond (subFromUsage (st.headroom.map Prod.fst) podU st.nodeUsage)
              (subHeadroom st.headroom podU) then
            ({ nodeUsage := subFromUsage (st.headroom.map Prod.fst) podU st.nodeUsage
               headroom := subHeadroom st.headroom podU
               evicted := st.evicted ++ [pod] }, none)
          else
            evictLoop ctx cond rest
              { nodeUsage := subFromUsage (st.headroom.map Prod.fst) podU st.nodeUsage
                headroom := subHeadroom st.headroom podU
                evicted := st.evicted ++ [pod] }
        | EvictOutcome.nodeLimit => (st, some EvictErr.nodeLimit)
        | EvictOutcome.totalLimit => (st, some EvictErr.totalLimit)
        | EvictOutcome.other => evictLoop ctx cond rest st

/-- `evictPods`: the continuation condition is checked once before the
candidate loop. -/
def evictPods (ctx : EvictCtx) (cond : ResourceList → ResourceList → Bool)
    (pods : List Pod) (nodeUsage headroom : ResourceList) :
    EvictState × Option EvictErr :=
  if cond nodeUsage headroom then
    evictLoop ctx cond pods { nodeUsage := nodeUsage, headroom := headroom, evicted := [] }
  else
    ({ nodeUsage := nodeUsage, headroom := headroom, evicted := [] }, none)

/-- One source node as the outer loop sees it: its name, its removable pods
(already filtered and sorted) and its usage map. -/
structure SourceNode where
  name : String
  pods : List Pod
  nodeUsage : ResourceList
deriving Repr

/-- The per-source loop of `evictPodsFromSourceNodes`: run `evictPods` on
each source in order, carrying the shared headroom; only a
`TotalLimitError` stops the iteration.  The first component records, per
processed source, the error `evictPods` returned. -/
def evictFromSourceNodes (ctx : EvictCtx) (cond : ResourceList → ResourceList → Bool) :
    List SourceNode → ResourceList →
    List (String × Option EvictErr) × ResourceList
  | [], headroom => ([], headroom)
  | src :: rest, headroom =>
    match evictPods ctx cond src.pods src.nodeUsage headroom with
    | (st, some EvictErr.totalLimit) => ([(src.name, some EvictErr.totalLimit)], st.headroom)
    | (st, e) =>
      ((src.name, e) :: (evictFromSourceNodes ctx cond rest st.headroom).1,
       (evictFromSourceNodes ctx cond rest st.headroom).2)

/-! ## Claims C6 and C7 on the eviction loop -/

/-- In single-eviction mode (every `PodUsage` call answers `NotSupported`)
the candidate loop never touches the usage or headroom maps and evicts at
most one more pod than it started with. -/
theorem evictLoop_notSupported (ctx : EvictCtx)
    (cond : ResourceList → ResourceList → Bool)
    (hns : ∀ p, ctx.podUsage p = PodUsageResult.notSupported) :
    ∀ (pods : List Pod) (st : EvictState),
      (evictLoop ctx cond pods st).1.nodeUsage = st.nodeUsage ∧
      (evictLoop ctx cond pods st).1.headroom = st.headroom ∧
      ((evictLoop ctx cond pods st).1.evicted = st.evicted ∨
        ∃ p, (evictLoop ctx cond pods st).1.evicted = st.evicted ++ [p]) := by
  intro pods
  induction pods with
  | nil =>
    intro st
    exact ⟨rfl, rfl, Or.inl rfl⟩
  | cons pod rest ih =>
    intro st
    rcases htol : ctx.tolerates pod with _ | _
    · rw [show evictLoop ctx cond (pod :: rest) st = evictLoop ctx cond rest st from by
        simp [evictLoop, htol]]
      exact ih st
    · rcases hpre : ctx.preFilter pod with _ | _
      · rw [show evictLoop ctx cond (pod :: rest) st = evictLoop ctx cond rest st from by
          simp [evictLoop, htol, hpre]]
        exact ih st
      · rcases hev : ctx.evict pod with _ | _ | _ | _
        · rw [show evictLoop ctx cond (pod :: rest) st =
              ({ st with evicted := st.evicted ++ [pod] }, none) from by
            simp [evictLoop, htol, hpre, hns pod, hev]]
          exact ⟨rfl, rfl, Or.inr ⟨pod, rfl⟩⟩
        · rw [show evictLoop ctx cond (pod :: rest) st = (st, some EvictErr.nodeLimit) from by
            simp [evictLoop, htol, hpre, hns pod, hev]]
          exact ⟨rfl, rfl, Or.inl rfl⟩
        · rw [show evictLoop ctx cond (pod :: rest) st = (st, some EvictErr.totalLimit) from by
            simp [evictLoop, htol, hpre, hns pod, hev]]
          exact ⟨rfl, rfl, Or.inl rfl⟩
        · rw [show evictLoop ctx cond (pod :: rest) st = evictLoop ctx cond rest st from by
            simp [evictLoop, htol, hpre, hns pod, hev]]
          exact ih st

/-- Claim C6 --- when `PodUsage` always answers `NotSupported` (as the query
usage source does), `evictPods` evicts at most one pod from the source node
and leaves both the node usage and the shared headroom untouched. -/
theorem single_eviction_mode (ctx : EvictCtx)
    (cond : ResourceList → ResourceList → Bool)
    (pods : List Pod) (nodeUsage headroom : ResourceList)
    (hns : ∀ p, ctx.podUsage p = PodUsageResult.notSupported) :
    (evictPods ctx cond pods nodeUsage headroom).1.evicted.length ≤ 1 ∧
    (evictPods ctx cond pods nodeUsage headroom).1.nodeUsage = nodeUsage ∧
    (evictPods ctx cond pods nodeUsage headroom).1.headroom = headroom := by
  unfold evictPods
  split
  · have h := evictLoop_notSupported ctx cond hns pods
      { nodeUsage := nodeUsage, headroom := headroom, evicted := [] }
    refine ⟨?_, h.1, h.2.1⟩
    rcases h.2.2 with he | ⟨p, he⟩ <;> rw [he] <;> simp
  · exact ⟨by simp, rfl, rfl⟩

/-- The `evictPods` call of claim C6's witness: three candidates on the
node, an evictor that always succeeds, a query-like usage client. -/
def c6Ctx : EvictCtx :=
  { tolerates := fun _ => true
    preFilter := fun _ => true
    podUsage := fun _ => PodUsageResult.notSupported
    evict := fun _ => EvictOutcome.ok }

/-- Witness for claim C6 at a concrete three-candidate node. -/
theorem single_eviction_mode_witness :
    (evictPods c6Ctx (fun _ _ => true) ["p1", "p2", "p3"] [(MetricResource, 80)]
        [(MetricResource, 10)]).1.evicted.length ≤ 1 ∧
    (evictPods c6Ctx (fun _ _ => true) ["p1", "p2", "p3"] [(MetricResource, 80)]
        [(MetricResource, 10)]).1.nodeUsage = [(MetricResource, 80)] ∧
    (evictPods c6Ctx (fun _ _ => true) ["p1", "p2", "p3"] [(MetricResource, 80)]
        [(MetricResource, 10)]).1.headroom = [(MetricResource, 10)] :=
  single_eviction_mode c6Ctx (fun _ _ => true) ["p1", "p2", "p3"]
    [(MetricResource, 80)] [(MetricResource, 10)] (fun _ => rfl)

/-- Claim C7 --- the eviction error taxonomy.  For an eligible candidate
(tolerates the destination taints, passes the pre-eviction filter, and
`PodUsage` did not fail with an ordinary error): an eviction answering
`NodeLimitError` ends the current source node only — the outer loop goes on
with the next source — `TotalLimitError` ends the whole outer loop, and any
other eviction error merely skips the candidate. -/
theorem eviction_error_taxonomy (ctx : EvictCtx)
    (cond : ResourceList → ResourceList → Bool)
    (pod : Pod) (rest : List Pod) (st : EvictState)
    (src : SourceNode) (srcRest : List SourceNode) (headroom : ResourceList)
    (htol : ctx.tolerates pod = true) (hpre : ctx.preFilter pod = true)
    (hpu : ctx.podUsage pod ≠ PodUsageResult.otherErr) :
    (ctx.evict pod = EvictOutcome.nodeLimit →
      evictLoop ctx cond (pod :: rest) st = (st, some EvictErr.nodeLimit)) ∧
    (ctx.evict pod = EvictOutcome.totalLimit →
      evictLoop ctx cond (pod :: rest) st = (st, some EvictErr.totalLimit)) ∧
    (ctx.evict pod = EvictOutcome.other →
      evictLoop ctx cond (pod :: rest) st = evictLoop ctx cond rest st) ∧
    ((evictPods ctx cond src.pods src.nodeUsage headroom).2 = some EvictErr.nodeLimit →
      evictFromSourceNodes ctx cond (src :: srcRest) headroom =
        ((src.name, some EvictErr.nodeLimit) ::
            (evictFromSourceNodes ctx cond srcRest
              (evictPods ctx cond src.pods src.nodeUsage headroom).1.headroom).1,
          (evictFromSourceNodes ctx cond srcRest
            (evictPods ctx cond src.pods src.nodeUsage headroom).1.headroom).2)) ∧
    ((evictPods ctx cond src.pods src.nodeUsage headroom).2 = some EvictErr.totalLimit →
      evictFromSourceNodes ctx cond (src :: srcRest) headroom =
        ([(src.name, some EvictErr.totalLimit)],
          (evictPods ctx cond src.pods src.nodeUsage headroom).1.headroom)) := by
  refine ⟨?_, ?_, ?_, ?_, ?_⟩
  · intro hev
    rcases hU : ctx.podUsage pod with u | _ | _
    · simp [evictLoop, htol, hpre, hU, hev]
    · simp [evictLoop, htol, hpre, hU, hev]
    · exact absurd hU hpu
  · intro hev
    rcases hU : ctx.podUsage pod with u | _ | _
    · simp [evictLoop, htol, hpre, hU, hev]
    · simp [evictLoop, htol, hpre, hU, hev]
    · exact absurd hU hpu
  · intro hev
    rcases hU : ctx.podUsage pod with u | _ | _
    · simp [evictLoop, htol, hpre, hU, hev]
    · simp [evictLoop, htol, hpre, hU, hev]
    · exact absurd hU hpu
  · intro h
    rcases hE : evictPods ctx cond src.pods src.nodeUsage headroom with ⟨st', e'⟩
    rw [hE] at h
    simp only at h
    subst h
    simp [evictFromSourceNodes, hE]
  · intro h
    rcases hE : evictPods ctx cond src.pods src.nodeUsage headroom with ⟨st', e'⟩
    rw [hE] at h
    simp only at h
    subst h
    simp [evictFromSourceNodes, hE]

/-- Witness for claim C7 with an evictor hitting the per-node quota at
once. -/
theorem eviction_error_taxonomy_witness :
    ((EvictCtx.mk (fun _ => true) (fun _ => true)
        (fun _ => PodUsageResult.notSupported) (fun _ => EvictOutcome.nodeLimit)).evict "p1" =
          EvictOutcome.nodeLimit →
      evictLoop (EvictCtx.mk (fun _ => true) (fun _ => true)
          (fun _ => PodUsageResult.notSupported) (fun _ => EvictOutcome.nodeLimit))
          (fun _ _ => true) ["p1", "p2"] (EvictState.mk [] [] []) =
        (EvictState.mk [] [] [], some EvictErr.nodeLimit)) ∧
    ((EvictCtx.mk (fun _ => true) (fun _ => true)
        (fun _ => PodUsageResult.notSupported) (fun _ => EvictOutcome.nodeLimit)).evict "p1" =
          EvictOutcome.totalLimit →
      evictLoop (EvictCtx.mk (fun _ => true) (fun _ => true)
          (fun _ => PodUsageResult.notSupported) (fun _ => EvictOutcome.nodeLimit))
          (fun _ _ => true) ["p1", "p2"] (EvictState.mk [] [] []) =
        (EvictState.mk [] [] [], some EvictErr.totalLimit)) ∧
    ((EvictCtx.mk (fun _ => true) (fun _ => true)
        (fun _ => PodUsageResult.notSupported) (fun _ => EvictOutcome.nodeLimit)).evict "p1" =
          EvictOutcome.other →
      evictLoop (EvictCtx.mk (fun _ => true) (fun _ => true)
          (fun _ => PodUsageResult.notSupported) (fun _ => EvictOutcome.nodeLimit))
          (fun _ _ => true) ["p1", "p2"] (EvictState.mk [] [] []) =
        evictLoop (EvictCtx.mk (fun _ => true) (fun _ => true)
          (fun _ => PodUsageResult.notSupported) (fun _ => EvictOutcome.nodeLimit))
          (fun _ _ => true) ["p2"] (EvictState.mk [] [] [])) ∧
    ((evictPods (EvictCtx.mk (fun _ => true) (fun _ => true)
        (fun _ => PodUsageResult.notSupported) (fun _ => EvictOutcome.nodeLimit))
        (fun _ _ => true) ["p1"] [] []).2 = some EvictErr.nodeLimit →
      evictFromSourceNodes (EvictCtx.mk (fun _ => true) (fun _ => true)
          (fun _ => PodUsageResult.notSupported) (fun _ => EvictOutcome.nodeLimit))
          (fun _ _ => true) [SourceNode.mk "s1" ["p1"] [], SourceNode.mk "s2" [] []] [] =
        (("s1", some EvictErr.nodeLimit) ::
            (evictFromSourceNodes (EvictCtx.mk (fun _ => true) (fun _ => true)
              (fun _ => PodUsageResult.notSupported) (fun _ => EvictOutcome.nodeLimit))
              (fun _ _ => true) [SourceNode.mk "s2" [] []]
              (evictPods (EvictCtx.mk (fun _ => true) (fun _ => true)
                (fun _ => PodUsageResult.notSupported) (fun _ => EvictOutcome.nodeLimit))
                (fun _ _ => true) ["p1"] [] []).1.headroom).1,
          (evictFromSourceNodes (EvictCtx.mk (fun _ => true) (fun _ => true)
            (fun _ => PodUsageResult.notSupported) (fun _ => EvictOutcome.nodeLimit))
            (fun _ _ => true) [SourceNode.mk "s2" [] []]
            (evictPods (EvictCtx.mk (fun _ => true) (fun _ => true)
              (fun _ => PodUsageResult.notSupported) (fun _ => EvictOutcome.nodeLimit))
              (fun _ _ => true) ["p1"] [] []).1.headroom).2)) ∧
    ((evictPods (EvictCtx.mk (fun _ => true) (fun _ => true)
        (fun _ => PodUsageResult.notSupported) (fun _ => EvictOutcome.nodeLimit))
        (fun _ _ => true) ["p1"] [] []).2 = some EvictErr.totalLimit →
      evictFromSourceNodes (EvictCtx.mk (fun _ => true) (fun _ => true)
          (fun _ => PodUsageResult.notSupported) (fun _ => EvictOutcome.nodeLimit))
          (fun _ _ => true) [SourceNode.mk "s1" ["p1"] [], SourceNode.mk "s2" [] []] [] =
        ([("s1", some EvictErr.totalLimit)],
          (evictPods (EvictCtx.mk (fun _ => true) (fun _ => true)
            (fun _ => PodUsageResult.notSupported) (fun _ => EvictOutcome.nodeLimit))
            (fun _ _ => true) ["p1"] [] []).1.headroom)) :=
  eviction_error_taxonomy
    (EvictCtx.mk (fun _ => true) (fun _ => true)
      (fun _ => PodUsageResult.notSupported) (fun _ => EvictOutcome.nodeLimit))
    (fun _ _ => true) "p1" ["p2"] (EvictState.mk [] [] [])
    (SourceNode.mk "s1" ["p1"] []) [SourceNode.mk "s2" [] []] []
    rfl rfl (by intro h; cases h)

end Descheduler
